import Mathlib

/-!
# Wayback services hunting: the pattern catalog, the archive rows and the dates

A shallow embedding of `waybackservices.go`.  Go strings are embedded as Lean
`String`s (the byte length `len(s)` is `String.utf8ByteSize`), slices as `List`s, and
`fmt.Sprintf` with `%s` and `%d` verbs as string concatenation (`toString` renders a
decimal integer as `%d` does).
-/

namespace Wayback

/-- The record `servicePattern` of the source: one URL pattern to query. -/
structure servicePattern where
  Service : String
  Pattern : String
  Provider : String
deriving DecidableEq, Repr

/-- The `for _, p := range providers` loop of `isProviderEnabled`. -/
def isProviderEnabled.scan (provider : String) : List String → Bool
  | [] => false
  | p :: ps => if p = provider then true else isProviderEnabled.scan provider ps

/-- Source `isProviderEnabled`: an empty key or an empty filter enables everything,
otherwise the key has to occur in the filter, compared with `==`. -/
def isProviderEnabled (providers : List String) (provider : String) : Bool :=
  if provider = "" then true
  else if providers.length = 0 then true
  else isProviderEnabled.scan provider providers

/-- The `if isProviderEnabled(providers, "google")` statement of `buildServicePatterns`. -/
def googleBlock (domain : String) (providers : List String)
    (patterns : List servicePattern) : List servicePattern :=
  if isProviderEnabled providers "google" then
    let patterns := patterns ++ [{
      Service := "google_sites",
      Pattern := "https://sites.google.com/a/" ++ domain ++ "/*",
      Provider := "google" }]
    let patterns := patterns ++ [{
      Service := "google_docs",
      Pattern := "https://docs.google.com/a/" ++ domain ++ "/*",
      Provider := "google" }]
    let patterns := patterns ++ [{
      Service := "google_groups",
      Pattern := "https://groups.google.com/a/" ++ domain ++ "/*",
      Provider := "google" }]
    let patterns := patterns ++ [{
      Service := "google_drive",
      Pattern := "https://drive.google.com/a/" ++ domain ++ "/*",
      Provider := "google" }]
    let patterns := patterns ++ [{
      Service := "google_mail",
      Pattern := "https://mail.google.com/a/" ++ domain ++ "/*",
      Provider := "google" }]
    let patterns := patterns ++ [{
      Service := "google_sheets",
      Pattern := "https://spreadsheets.google.com/a/" ++ domain ++ "/*",
      Provider := "google" }]
    (List.range 9).foldl (fun patterns i => patterns ++ [{
      Service := "google_sheets_legacy_" ++ toString i,
      Pattern := "https://spreadsheets" ++ toString i ++ ".google.com/a/" ++ domain ++ "/*",
      Provider := "google" }]) patterns
  else patterns

/-- The `if isProviderEnabled(providers, "sharepoint")` statement of `buildServicePatterns`. -/
def sharepointBlock (domain : String) (providers : List String)
    (patterns : List servicePattern) : List servicePattern :=
  if isProviderEnabled providers "sharepoint" then
    let patterns := patterns ++ [{
      Service := "sharepoint_sites",
      Pattern := "https://*.sharepoint.com/*" ++ domain ++ "*",
      Provider := "sharepoint" }]
    let patterns := patterns ++ [{
      Service := "sharepoint_onedrive",
      Pattern := "https://*.sharepoint.com/personal/*" ++ domain ++ "*",
      Provider := "sharepoint" }]
    patterns
  else patterns

/-- The `if isProviderEnabled(providers, "onedrive")` statement of `buildServicePatterns`. -/
def onedriveBlock (domain : String) (providers : List String)
    (patterns : List servicePattern) : List servicePattern :=
  if isProviderEnabled providers "onedrive" then
    let patterns := patterns ++ [{
      Service := "onedrive_short",
      Pattern := "https://*.1drv.ms/*" ++ domain ++ "*",
      Provider := "onedrive" }]
    patterns
  else patterns

/-- The `if isProviderEnabled(providers, "dropbox")` statement of `buildServicePatterns`. -/
def dropboxBlock (domain : String) (providers : List String)
    (patterns : List servicePattern) : List servicePattern :=
  if isProviderEnabled providers "dropbox" then
    let patterns := patterns ++ [{
      Service := "dropbox_shares",
      Pattern := "https://www.dropbox.com/s/*" ++ domain ++ "*",
      Provider := "dropbox" }]
    let patterns := patterns ++ [{
      Service := "dropbox_folders",
      Pattern := "https://www.dropbox.com/sh/*" ++ domain ++ "*",
      Provider := "dropbox" }]
    patterns
  else patterns

/-- The `if isProviderEnabled(providers, "box")` statement of `buildServicePatterns`. -/
def boxBlock (domain : String) (providers : List String)
    (patterns : List servicePattern) : List servicePattern :=
  if isProviderEnabled providers "box" then
    let patterns := patterns ++ [{
      Service := "box_shares",
      Pattern := "https://*.box.com/s/*" ++ domain ++ "*",
      Provider := "box" }]
    let patterns := patterns ++ [{
      Service := "box_folders",
      Pattern := "https://*.box.com/folder/*" ++ domain ++ "*",
      Provider := "box" }]
    patterns
  else patterns

/-- The `if isProviderEnabled(providers, "github")` statement of `buildServicePatterns`. -/
def githubBlock (domain : String) (providers : List String)
    (patterns : List servicePattern) : List servicePattern :=
  if isProviderEnabled providers "github" then
    let patterns := patterns ++ [{
      Service := "github_repos",
      Pattern := "https://github.com/*" ++ domain ++ "*/*",
      Provider := "github" }]
    let patterns := patterns ++ [{
      Service := "github_raw",
      Pattern := "https://raw.githubusercontent.com/*" ++ domain ++ "*/*",
      Provider := "github" }]
    patterns
  else patterns

/-- The `if isProviderEnabled(providers, "gitlab")` statement of `buildServicePatterns`. -/
def gitlabBlock (domain : String) (providers : List String)
    (patterns : List servicePattern) : List servicePattern :=
  if isProviderEnabled providers "gitlab" then
    let patterns := patterns ++ [{
      Service := "gitlab_repos",
      Pattern := "https://gitlab.com/*" ++ domain ++ "*/*",
      Provider := "gitlab" }]
    patterns
  else patterns

/-- The `if isProviderEnabled(providers, "atlassian")` statement of `buildServicePatterns`. -/
def atlassianBlock (domain : String) (providers : List String)
    (patterns : List servicePattern) : List servicePattern :=
  if isProviderEnabled providers "atlassian" then
    let patterns := patterns ++ [{
      Service := "confluence",
      Pattern := "https://*.atlassian.net/wiki/*" ++ domain ++ "*",
      Provider := "atlassian" }]
    let patterns := patterns ++ [{
      Service := "jira",
      Pattern := "https://*.atlassian.net/browse/*" ++ domain ++ "*",
      Provider := "atlassian" }]
    patterns
  else patterns

/-- The `if isProviderEnabled(providers, "notion")` statement of `buildServicePatterns`. -/
def notionBlock (domain : String) (providers : List String)
    (patterns : List servicePattern) : List servicePattern :=
  if isProviderEnabled providers "notion" then
    let patterns := patterns ++ [{
      Service := "notion",
      Pattern := "https://www.notion.so/*" ++ domain ++ "*",
      Provider := "notion" }]
    patterns
  else patterns

/-- The `if isProviderEnabled(providers, "slack")` statement of `buildServicePatterns`. -/
def slackBlock (domain : String) (providers : List String)
    (patterns : List servicePattern) : List servicePattern :=
  if isProviderEnabled providers "slack" then
    let patterns := patterns ++ [{
      Service := "slack_files",
      Pattern := "https://files.slack.com/*" ++ domain ++ "*",
      Provider := "slack" }]
    let patterns := patterns ++ [{
      Service := "slack_workspace",
      Pattern := "https://" ++ domain ++ ".slack.com/*",
      Provider := "slack" }]
    patterns
  else patterns

/-- The `if isProviderEnabled(providers, "trello")` statement of `buildServicePatterns`. -/
def trelloBlock (domain : String) (providers : List String)
    (patterns : List servicePattern) : List servicePattern :=
  if isProviderEnabled providers "trello" then
    let patterns := patterns ++ [{
      Service := "trello_boards",
      Pattern := "https://trello.com/b/*" ++ domain ++ "*",
      Provider := "trello" }]
    patterns
  else patterns

/-- The `if isProviderEnabled(providers, "azure")` statement of `buildServicePatterns`. -/
def azureBlock (domain : String) (providers : List String)
    (patterns : List servicePattern) : List servicePattern :=
  if isProviderEnabled providers "azure" then
    let patterns := patterns ++ [{
      Service := "azure_blob",
      Pattern := "https://" ++ domain ++ ".blob.core.windows.net/*",
      Provider := "azure" }]
    let patterns := patterns ++ [{
      Service := "azure_sites",
      Pattern := "https://" ++ domain ++ ".azurewebsites.net/*",
      Provider := "azure" }]
    patterns
  else patterns

/-- The `if isProviderEnabled(providers, "s3")` statement of `buildServicePatterns`. -/
def s3Block (domain : String) (providers : List String)
    (patterns : List servicePattern) : List servicePattern :=
  if isProviderEnabled providers "s3" then
    let patterns := patterns ++ [{
      Service := "aws_s3_bucket",
      Pattern := "https://" ++ domain ++ ".s3.amazonaws.com/*",
      Provider := "s3" }]
    let patterns := patterns ++ [{
      Service := "aws_s3_website",
      Pattern := "https://" ++ domain ++ ".s3-website.*.amazonaws.com/*",
      Provider := "s3" }]
    patterns
  else patterns

/-- The `if isProviderEnabled(providers, "gcs")` statement of `buildServicePatterns`. -/
def gcsBlock (domain : String) (providers : List String)
    (patterns : List servicePattern) : List servicePattern :=
  if isProviderEnabled providers "gcs" then
    let patterns := patterns ++ [{
      Service := "gcs_bucket",
      Pattern := "https://storage.googleapis.com/" ++ domain ++ "/*",
      Provider := "gcs" }]
    patterns
  else patterns

/-- The `if isProviderEnabled(providers, "bitbucket")` statement of `buildServicePatterns`. -/
def bitbucketBlock (domain : String) (providers : List String)
    (patterns : List servicePattern) : List servicePattern :=
  if isProviderEnabled providers "bitbucket" then
    let patterns := patterns ++ [{
      Service := "bitbucket_repos",
      Pattern := "https://bitbucket.org/*" ++ domain ++ "*/*",
      Provider := "bitbucket" }]
    patterns
  else patterns

/-- The `if isProviderEnabled(providers, "paste")` statement of `buildServicePatterns`. -/
def pasteBlock (domain : String) (providers : List String)
    (patterns : List servicePattern) : List servicePattern :=
  if isProviderEnabled providers "paste" then
    let patterns := patterns ++ [{
      Service := "pastebin",
      Pattern := "https://pastebin.com/*" ++ domain ++ "*",
      Provider := "paste" }]
    let patterns := patterns ++ [{
      Service := "hastebin",
      Pattern := "https://hastebin.com/*" ++ domain ++ "*",
      Provider := "paste" }]
    patterns
  else patterns

/-- The `if isProviderEnabled(providers, "calendar")` statement of `buildServicePatterns`. -/
def calendarBlock (domain : String) (providers : List String)
    (patterns : List servicePattern) : List servicePattern :=
  if isProviderEnabled providers "calendar" then
    let patterns := patterns ++ [{
      Service := "google_calendar",
      Pattern := "https://calendar.google.com/calendar/*" ++ domain ++ "*",
      Provider := "calendar" }]
    patterns
  else patterns

/-- The `if isProviderEnabled(providers, "zoom")` statement of `buildServicePatterns`. -/
def zoomBlock (domain : String) (providers : List String)
    (patterns : List servicePattern) : List servicePattern :=
  if isProviderEnabled providers "zoom" then
    let patterns := patterns ++ [{
      Service := "zoom_meetings",
      Pattern := "https://" ++ domain ++ ".zoom.us/*",
      Provider := "zoom" }]
    patterns
  else patterns

/-- The `if isProviderEnabled(providers, "figma")` statement of `buildServicePatterns`. -/
def figmaBlock (domain : String) (providers : List String)
    (patterns : List servicePattern) : List servicePattern :=
  if isProviderEnabled providers "figma" then
    let patterns := patterns ++ [{
      Service := "figma_files",
      Pattern := "https://www.figma.com/file/*" ++ domain ++ "*",
      Provider := "figma" }]
    patterns
  else patterns

/-- The `if isProviderEnabled(providers, "firebase")` statement of `buildServicePatterns`. -/
def firebaseBlock (domain : String) (providers : List String)
    (patterns : List servicePattern) : List servicePattern :=
  if isProviderEnabled providers "firebase" then
    let patterns := patterns ++ [{
      Service := "firebaseio_db",
      Pattern := "https://" ++ domain ++ ".firebaseio.com/*",
      Provider := "firebase" }]
    let patterns := patterns ++ [{
      Service := "firebase_storage",
      Pattern := "https://firebasestorage.googleapis.com/*" ++ domain ++ "*",
      Provider := "firebase" }]
    patterns
  else patterns

/-- Source `buildServicePatterns`: the slice `patterns` starts empty and the provider
blocks run in the order in which the source lists them. -/
def buildServicePatterns (domain : String) (providers : List String) : List servicePattern :=
  let patterns : List servicePattern := []
  let patterns := googleBlock domain providers patterns
  let patterns := sharepointBlock domain providers patterns
  let patterns := onedriveBlock domain providers patterns
  let patterns := dropboxBlock domain providers patterns
  let patterns := boxBlock domain providers patterns
  let patterns := githubBlock domain providers patterns
  let patterns := gitlabBlock domain providers patterns
  let patterns := atlassianBlock domain providers patterns
  let patterns := notionBlock domain providers patterns
  let patterns := slackBlock domain providers patterns
  let patterns := trelloBlock domain providers patterns
  let patterns := azureBlock domain providers patterns
  let patterns := s3Block domain providers patterns
  let patterns := gcsBlock domain providers patterns
  let patterns := bitbucketBlock domain providers patterns
  let patterns := pasteBlock domain providers patterns
  let patterns := calendarBlock domain providers patterns
  let patterns := zoomBlock domain providers patterns
  let patterns := figmaBlock domain providers patterns
  let patterns := firebaseBlock domain providers patterns
  patterns

/-- The provider blocks of `buildServicePatterns` in source order, each with its key. -/
def blockSteps :
    List (String × (String → List String → List servicePattern → List servicePattern)) :=
  [("google", googleBlock), ("sharepoint", sharepointBlock), ("onedrive", onedriveBlock),
   ("dropbox", dropboxBlock), ("box", boxBlock), ("github", githubBlock),
   ("gitlab", gitlabBlock), ("atlassian", atlassianBlock), ("notion", notionBlock),
   ("slack", slackBlock), ("trello", trelloBlock), ("azure", azureBlock), ("s3", s3Block),
   ("gcs", gcsBlock), ("bitbucket", bitbucketBlock), ("paste", pasteBlock),
   ("calendar", calendarBlock), ("zoom", zoomBlock), ("figma", figmaBlock),
   ("firebase", firebaseBlock)]

/-- The twenty provider keys of the catalog, in the order in which the specification
lists them. -/
def catalogKeys : List String :=
  ["google", "sharepoint", "onedrive", "dropbox", "box", "github", "gitlab", "bitbucket",
   "atlassian", "notion", "slack", "trello", "azure", "s3", "gcs", "firebase", "paste",
   "calendar", "zoom", "figma"]

/-- Two keys are equal up to letter case: they have the same characters once the
letters `A` to `Z` are folded to lower case. -/
def equalUpToCase (a b : String) : Prop :=
  a.data.map Char.toLower = b.data.map Char.toLower

/-- The six base google patterns, as the catalog lists them for a domain. -/
def googleBase (domain : String) : List servicePattern :=
  [⟨"google_sites", "https://sites.google.com/a/" ++ domain ++ "/*", "google"⟩,
   ⟨"google_docs", "https://docs.google.com/a/" ++ domain ++ "/*", "google"⟩,
   ⟨"google_groups", "https://groups.google.com/a/" ++ domain ++ "/*", "google"⟩,
   ⟨"google_drive", "https://drive.google.com/a/" ++ domain ++ "/*", "google"⟩,
   ⟨"google_mail", "https://mail.google.com/a/" ++ domain ++ "/*", "google"⟩,
   ⟨"google_sheets", "https://spreadsheets.google.com/a/" ++ domain ++ "/*", "google"⟩]

/-- The legacy numbered spreadsheet pattern number `i` for a domain. -/
def legacySheet (domain : String) (i : Nat) : servicePattern :=
  ⟨"google_sheets_legacy_" ++ toString i,
   "https://spreadsheets" ++ toString i ++ ".google.com/a/" ++ domain ++ "/*", "google"⟩

/-! ### The archive client -/

/-- The record `wbEntry` of the source: one archived capture. -/
structure wbEntry where
  Date : String
  URL : String
deriving DecidableEq, Repr

/-- The `for _, row := range raw` loop of `fetchWayback`, with its two variables `skip`
and `entries` passed along: the row met while `skip` is set is dropped, a row with
fewer than three columns is dropped, any other row appends `(row[1], row[2])`. -/
def fetchWayback.rows : List (List String) → Bool → List wbEntry → List wbEntry
  | [], _, entries => entries
  | row :: rest, skip, entries =>
    if skip then fetchWayback.rows rest false entries
    else if h : row.length < 3 then fetchWayback.rows rest skip entries
    else fetchWayback.rows rest skip (entries ++ [{ Date := row[1], URL := row[2] }])

/-- Source `fetchWayback`. The HTTP request, the reading of the body and
`json.Unmarshal` into `[][]string` are the parameter `archive`: it maps the pattern to
the transport or decoding error, or to the decoded rows. The `debug` flag only adds
diagnostics. -/
def fetchWayback (archive : String → Except String (List (List String)))
    (pattern : String) (_debug : Bool) : Except String (List wbEntry) :=
  match archive pattern with
  | .error err => .error err
  | .ok raw => .ok (fetchWayback.rows raw true [])

/-- The entries the specification describes for a decoded response: the rows after the
first that have at least three columns, each giving columns 1 and 2. -/
def specEntries (raw : List (List String)) : List wbEntry :=
  ((raw.drop 1).filter (fun row => decide (3 ≤ row.length))).map
    (fun row => { Date := row.getD 1 "", URL := row.getD 2 "" })

/-! ### Dates

`formatWBDate` calls `time.Parse` with the layout `"20060102150405"` and formats the
result with `time.RFC3339`. Both belong to the Go standard library; they are embedded here
for exactly these two layouts, chunk by chunk as the library processes them. The parser
reads the characters of the string: a successful parse needs fourteen ASCII digits, for
which characters and bytes coincide, and on every other input both readings fail. A
`time.Time` in UTC is represented by its calendar fields. -/

/-- The test `'0' <= c && c <= '9'` on one character. -/
def isDigitByte (c : Char) : Bool := decide (48 ≤ c.toNat ∧ c.toNat ≤ 57)

/-- Library `isDigit(s, i)`: position `i` exists and holds a decimal digit. -/
def isDigit (s : List Char) (i : Nat) : Bool :=
  match s[i]? with
  | none => false
  | some c => isDigitByte c

/-- The value `c - '0'` of a digit character. -/
def digitValue (c : Char) : Nat := c.toNat - 48

/-- Library `getnum(s, fixed)`: a number of one or two digits at the start of `s`, two
digits being required when `fixed` is set; returns the number and the rest of `s`. -/
def getnum (s : List Char) (fixed : Bool) : Option (Nat × List Char) :=
  if !isDigit s 0 then none
  else if !isDigit s 1 then
    if fixed then none else some (digitValue (s.getD 0 '0'), s.drop 1)
  else some (digitValue (s.getD 0 '0') * 10 + digitValue (s.getD 1 '0'), s.drop 2)

/-- Library `leadingInt(s)`: the leading digits of `s` as a number, with the rest of
`s`; fails when the number leaves the 63-bit range. -/
def leadingInt : List Char → Nat → Option (Nat × List Char)
  | [], x => some (x, [])
  | c :: cs, x =>
    if !isDigitByte c then some (x, c :: cs)
    else if x > 2 ^ 63 / 10 then none
    else
      let x := x * 10 + digitValue c
      if x > 2 ^ 63 then none else leadingInt cs x

/-- Library `atoi(s)`: an optional sign followed by digits only. -/
def atoi (s : List Char) : Option Int :=
  let neg := s.head? = some '-'
  let s := if s.head? = some '-' ∨ s.head? = some '+' then s.drop 1 else s
  match leadingInt s 0 with
  | none => none
  | some (q, rem) =>
    if rem.length > 0 then none
    else if neg then some (-(q : Int)) else some (q : Int)

/-- Library `isLeap(year)`. -/
def isLeap (year : Int) : Bool :=
  year % 4 = 0 ∧ (year % 100 ≠ 0 ∨ year % 400 = 0)

/-- Library table `daysBefore`: the days of a non-leap year before each month. -/
def daysBefore : List Nat :=
  [0, 31, 59, 90, 120, 151, 181, 212, 243, 273, 304, 334, 365]

/-- Library `daysIn(m, year)`. -/
def daysIn (m : Nat) (year : Int) : Nat :=
  if m = 2 ∧ isLeap year then 29
  else daysBefore.getD m 0 - daysBefore.getD (m - 1) 0

/-- Library `commaOrPeriod(c)`. -/
def commaOrPeriod (c : Char) : Bool := c = '.' ∨ c = ','

/-- A `time.Time` in UTC, by its calendar fields. -/
structure Time where
  year : Int
  month : Nat
  day : Nat
  hour : Nat
  min : Nat
  sec : Nat
deriving DecidableEq, Repr

/-- Library `time.Parse("20060102150405", value)`: the chunks are a four-digit year, a
two-digit month, a two-digit day, an hour of one or two digits, a two-digit minute and
a two-digit second; a fraction may follow the seconds; text left over is an error; the
day is validated against the month and the year at the end. Without a zone in the
layout the time is in UTC. -/
def timeParse (value : List Char) : Option Time :=
  if value.length < 4 || !isDigit value 0 then none
  else
    let p := value.take 4
    let value := value.drop 4
    match atoi p with
    | none => none
    | some year =>
      match getnum value true with
      | none => none
      | some (month, value) =>
        if month ≤ 0 ∨ 12 < month then none
        else
          match getnum value true with
          | none => none
          | some (day, value) =>
            match getnum value false with
            | none => none
            | some (hour, value) =>
              if 24 ≤ hour then none
              else
                match getnum value true with
                | none => none
                | some (min, value) =>
                  if 60 ≤ min then none
                  else
                    match getnum value true with
                    | none => none
                    | some (sec, value) =>
                      if 60 ≤ sec then none
                      else
                        let value :=
                          if value.length ≥ 2 && commaOrPeriod (value.getD 0 ' ')
                              && isDigit value 1 then
                            (value.drop 2).dropWhile (fun c => isDigit [c] 0)
                          else value
                        if value.length ≠ 0 then none
                        else if day < 1 ∨ day > daysIn month year then none
                        else some { year := year, month := month, day := day,
                                    hour := hour, min := min, sec := sec }

/-- The last `width` decimal digits of `x`, most significant first. -/
def fixedDigits (x : Nat) : Nat → List Char
  | 0 => []
  | width + 1 => fixedDigits (x / 10) width ++ [Nat.digitChar (x % 10)]

/-- Library `appendInt(b, x, width)`: the decimal form of `x`, padded with leading
zeros to `width` digits, after a minus sign when `x` is negative. -/
def appendInt (x : Int) (width : Nat) : List Char :=
  let u := x.natAbs
  let sign := if x < 0 then ['-'] else []
  if u < 10 ^ width then sign ++ fixedDigits u width
  else sign ++ Nat.toDigits 10 u

/-- Library `t.Format(time.RFC3339)` for a time in UTC: the layout
`2006-01-02T15:04:05Z07:00`, whose zone chunk prints `Z` for UTC. -/
def formatRFC3339 (t : Time) : String :=
  String.mk (appendInt t.year 4 ++ ['-'] ++ appendInt t.month 2 ++ ['-'] ++
    appendInt t.day 2 ++ ['T'] ++ appendInt t.hour 2 ++ [':'] ++ appendInt t.min 2 ++
    [':'] ++ appendInt t.sec 2 ++ ['Z'])

/-- Source `formatWBDate`: a string that is not 14 bytes long, or that `time.Parse`
rejects, is returned as it is; otherwise the parsed time is formatted as RFC 3339. -/
def formatWBDate (raw : String) : String :=
  if raw.utf8ByteSize ≠ 14 then raw
  else
    match timeParse raw.data with
    | none => raw
    | some t => formatRFC3339 t

/-- The decimal value of the `len` characters of `s` from position `start`. -/
def fieldValue (s : List Char) (start len : Nat) : Nat :=
  ((s.drop start).take len).foldl (fun acc c => acc * 10 + digitValue c) 0

/-- The number of days of a month of the Gregorian calendar: 31 for January, March, May,
July, August, October and December, 30 for April, June, September and November, and for
February 29 in a leap year (a year divisible by 4 and not by 100, or divisible by 400)
and 28 otherwise. -/
def calendarDays (year month : Nat) : Nat :=
  if month = 1 ∨ month = 3 ∨ month = 5 ∨ month = 7 ∨ month = 8 ∨ month = 10 ∨ month = 12
  then 31
  else if month = 4 ∨ month = 6 ∨ month = 9 ∨ month = 11 then 30
  else if month = 2 then
    if (year % 4 = 0 ∧ year % 100 ≠ 0) ∨ year % 400 = 0 then 29 else 28
  else 0

/-- A timestamp `YYYYMMDDHHMMSS` that denotes a valid calendar date and time: fourteen
decimal digits, month 01 to 12, a day that exists in that month of that year, hour 00 to
23, minute and second 00 to 59. -/
def validStamp (s : List Char) : Prop :=
  s.length = 14 ∧ (∀ c ∈ s, c.isDigit = true) ∧
    1 ≤ fieldValue s 4 2 ∧ fieldValue s 4 2 ≤ 12 ∧
    1 ≤ fieldValue s 6 2 ∧
    fieldValue s 6 2 ≤ calendarDays (fieldValue s 0 4) (fieldValue s 4 2) ∧
    fieldValue s 8 2 ≤ 23 ∧ fieldValue s 10 2 ≤ 59 ∧ fieldValue s 12 2 ≤ 59

instance validStamp.decidable (s : List Char) : Decidable (validStamp s) := by
  unfold validStamp
  infer_instance

/-- The text `YYYY-MM-DDTHH:MM:SSZ` made of the characters of `YYYYMMDDHHMMSS`. -/
def isoShape (s : List Char) : List Char :=
  s.take 4 ++ ['-'] ++ (s.drop 4).take 2 ++ ['-'] ++ (s.drop 6).take 2 ++ ['T'] ++
    (s.drop 8).take 2 ++ [':'] ++ (s.drop 10).take 2 ++ [':'] ++ (s.drop 12).take 2 ++ ['Z']

/-! ### Sorting the service names -/

/-- The lexicographic comparison of two character sequences. -/
def lexLess : List Char → List Char → Bool
  | [], [] => false
  | [], _ :: _ => true
  | _ :: _, [] => false
  | a :: as, b :: bs =>
    if a.toNat < b.toNat then true
    else if b.toNat < a.toNat then false
    else lexLess as bs

/-- The Go comparison `x < y` of two strings: it compares byte by byte, which on UTF-8
text is the lexicographic order of the code points. -/
def stringLess (x y : String) : Bool := lexLess x.data y.data

/-- The assignment `a[i], a[j] = a[j], a[i]`: both old values are read, then written. -/
def swapAt (a : List String) (i j : Nat) : List String :=
  (a.set i (a.getD j "")).set j (a.getD i "")

/-- The inner loop `for j := i + 1; j < len(a); j++` of `sortStrings`, by the number of
iterations that remain: `a[j]` and `a[i]` are exchanged when `a[j] < a[i]`. -/
def sortStrings.inner (i : Nat) : Nat → Nat → List String → List String
  | 0, _, a => a
  | n + 1, j, a =>
    sortStrings.inner i n (j + 1) (if stringLess (a.getD j "") (a.getD i "") then swapAt a i j else a)

/-- The outer loop `for i := 0; i < len(a)-1; i++` of `sortStrings`, by the number of
iterations that remain; the inner loop runs from `i + 1` to the end of the slice. -/
def sortStrings.outer : Nat → Nat → List String → List String
  | 0, _, a => a
  | n + 1, i, a =>
    sortStrings.outer n (i + 1) (sortStrings.inner i (a.length - (i + 1)) (i + 1) a)

/-- Source `sortStrings`: sorts the slice in place; the result is the content of the
slice after the call. -/
def sortStrings (a : List String) : List String :=
  if a.length < 2 then a
  else sortStrings.outer (a.length - 1) 0 a

/-- One pass of the inner loop seen from the element held at position `i`: the smallest
element met so far stays in hand, the others are put back in the order of the slice. -/
def sweep (x : String) : List String → String × List String
  | [] => (x, [])
  | y :: ys =>
    if stringLess y x then ((sweep y ys).1, x :: (sweep y ys).2)
    else ((sweep x ys).1, y :: (sweep x ys).2)

/-! ### Library string functions

The functions of the Go package `strings` that the source calls, on the characters of
the string. The characters they look for (white space, the comma, the characters of
file names and of HTML) are ASCII or single code points, so that reading characters
instead of bytes gives the same result on UTF-8 text. -/

/-- Library `unicode.IsSpace`: the code points with the Unicode property White_Space. -/
def isSpace (c : Char) : Bool :=
  let n := c.toNat
  decide (n = 0x09 ∨ n = 0x0A ∨ n = 0x0B ∨ n = 0x0C ∨ n = 0x0D ∨ n = 0x20 ∨ n = 0x85 ∨
    n = 0xA0 ∨ n = 0x1680 ∨ (0x2000 ≤ n ∧ n ≤ 0x200A) ∨ n = 0x2028 ∨ n = 0x2029 ∨
    n = 0x202F ∨ n = 0x205F ∨ n = 0x3000)

/-- The characters of `strings.TrimSpace(s)`: leading and trailing white space removed. -/
def trimSpaceChars (l : List Char) : List Char :=
  (l.dropWhile isSpace).rdropWhile isSpace

/-- Library `strings.TrimSpace`. -/
def TrimSpace (s : String) : String := String.mk (trimSpaceChars s.data)

/-- The pieces of a character sequence between the occurrences of `sep`; there is always
at least one piece. -/
def splitChars (sep : Char) : List Char → List (List Char)
  | [] => [[]]
  | c :: cs =>
    if c = sep then [] :: splitChars sep cs
    else
      match splitChars sep cs with
      | [] => [[c]]
      | piece :: pieces => (c :: piece) :: pieces

/-- Library `strings.Split(s, sep)` for a separator of one character. -/
def Split (s : String) (sep : Char) : List String :=
  (splitChars sep s.data).map String.mk

/-- Library `unicode.ToLower` on one code point: the letters `A` to `Z` move to `a` to
`z`, the other ASCII characters stay; above ASCII the Unicode case tables decide, and
they are the parameter `table`. -/
def toLowerRune (table : Char → Char) (c : Char) : Char :=
  if c.toNat < 128 then
    if 65 ≤ c.toNat ∧ c.toNat ≤ 90 then Char.ofNat (c.toNat + 32) else c
  else table c

/-- Library `strings.ToLower`: every code point mapped by `unicode.ToLower`. -/
def ToLower (table : Char → Char) (s : String) : String :=
  String.mk (s.data.map (toLowerRune table))

/-- The scan of `strings.ReplaceAll` for a non-empty `old`: `skip` counts the characters
of a match still to be dropped; where `old` starts, `new` is written instead. -/
def replaceChars (old new : List Char) : Nat → List Char → List Char
  | _, [] => []
  | skip + 1, _ :: cs => replaceChars old new skip cs
  | 0, c :: cs =>
    if old.isPrefixOf (c :: cs) then new ++ replaceChars old new (old.length - 1) cs
    else c :: replaceChars old new 0 cs

/-- Library `strings.ReplaceAll(s, old, new)`: the non-overlapping occurrences of `old`
replaced from left to right; an empty `old` matches before every character and at the
end. -/
def ReplaceAll (s old new : String) : String :=
  if old.data = [] then String.mk (new.data ++ s.data.flatMap (fun c => c :: new.data))
  else String.mk (replaceChars old.data new.data 0 s.data)

/-- Library `strings.NewReplacer(oldnew...).Replace(s)` when every old string is one
character: each character that has a replacement is replaced by it, the first pair for
a character winning, in one pass from left to right; the other characters are copied. -/
def replacerReplace (oldnew : List (Char × String)) (s : String) : String :=
  String.mk (s.data.flatMap (fun c =>
    match oldnew.find? (fun p => p.1 = c) with
    | some p => p.2.data
    | none => [c]))

/-! ### Command line, orchestrator and renderers -/

/-- The record `WaybackResult` of the source. -/
structure WaybackResult where
  Service : String
  URL : String
  Date : String
deriving DecidableEq, Repr

/-- The record `WBConfig` of the source. -/
structure WBConfig where
  Domain : String
  ListPath : String
  Providers : List String
  Debug : Bool
  Report : Bool
deriving DecidableEq, Repr

/-- The loop `for _, p := range parts` of `parseWBFlags`: every part is trimmed, then
lower-cased; a part that is then empty is skipped, the others are appended. -/
def parseWBFlags.parts (table : Char → Char) : List String → List String → List String
  | [], providers => providers
  | p :: rest, providers =>
    let p := ToLower table (TrimSpace p)
    if p = "" then parseWBFlags.parts table rest providers
    else parseWBFlags.parts table rest (providers ++ [p])

/-- The provider list that `parseWBFlags` computes from the value of `-provider`. -/
def parseWBFlags.providers (table : Char → Char) (provider : String) : List String :=
  let providers : List String := []
  if TrimSpace provider ≠ "" then
    let parts := Split provider ','
    parseWBFlags.parts table parts providers
  else providers

/-- Source `parseWBFlags`, from the values of the five flags after `flag.Parse()`. -/
def parseWBFlags (table : Char → Char) (domain list provider : String)
    (report debug : Bool) : WBConfig :=
  { Domain := TrimSpace domain,
    ListPath := TrimSpace list,
    Providers := parseWBFlags.providers table provider,
    Report := report,
    Debug := debug }

/-- What `runForDomainWayback` returns, with the patterns it passed to `fetchWayback`
in the order of the calls. -/
structure RunOutcome where
  results : List WaybackResult
  err : Option String
  queried : List String
deriving DecidableEq, Repr

/-- The loop `for i, p := range patterns` of `runForDomainWayback` with its variable
`results` and the list of the patterns queried so far: a failed fetch only writes a
diagnostic, a successful one appends one result for each entry. -/
def runForDomainWayback.patterns (archive : String → Except String (List (List String)))
    (debug : Bool) :
    List servicePattern → List WaybackResult × List String → List WaybackResult × List String
  | [], state => state
  | p :: rest, (results, queried) =>
    match fetchWayback archive p.Pattern debug with
    | .error _ =>
      runForDomainWayback.patterns archive debug rest (results, queried ++ [p.Pattern])
    | .ok entries =>
      runForDomainWayback.patterns archive debug rest
        (entries.foldl (fun results e =>
            results ++ [{ Service := p.Service, URL := e.URL, Date := e.Date }]) results,
          queried ++ [p.Pattern])

/-- Source `runForDomainWayback`. -/
def runForDomainWayback (archive : String → Except String (List (List String)))
    (domain : String) (providers : List String) (debug : Bool) : RunOutcome :=
  let domain := TrimSpace domain
  if domain = "" then { results := [], err := some "domaine vide", queried := [] }
  else
    let patterns := buildServicePatterns domain providers
    let state := runForDomainWayback.patterns archive debug patterns ([], [])
    { results := state.1, err := none, queried := state.2 }

/-- A Go `map[string][]WaybackResult`: keys without repetition, each with its value. -/
abbrev Groups := List (String × List WaybackResult)

/-- The read `groups[k]`, which is `nil` for a key that is absent. -/
def Groups.get : Groups → String → List WaybackResult
  | [], _ => []
  | (k', v) :: rest, k => if k' = k then v else Groups.get rest k

/-- The write `groups[k] = v`. -/
def Groups.put : Groups → String → List WaybackResult → Groups
  | [], k, v => [(k, v)]
  | (k', v') :: rest, k, v =>
    if k' = k then (k, v) :: rest else (k', v') :: Groups.put rest k v

/-- The keys of the map. -/
def Groups.keys (g : Groups) : List String := g.map (fun kv => kv.1)

/-- The grouping loop of both renderers:
`groups[r.Service] = append(groups[r.Service], r)` for every result in order. -/
def groupResults (results : List WaybackResult) : Groups :=
  results.foldl (fun groups r => groups.put r.Service (groups.get r.Service ++ [r])) []

/-- The slice `services` of both renderers after `sortStrings(services)`. The statement
`for s := range groups` visits the keys in an order that Go leaves open: `visit` gives
that order for a list of keys. -/
def sortedServices (visit : List String → List String) (groups : Groups) : List String :=
  sortStrings (visit groups.keys)

/-- One line of the console listing for a result. -/
def consoleLine (r : WaybackResult) : String :=
  if r.Date ≠ "" then formatWBDate r.Date ++ " " ++ r.URL else r.URL

/-- The three print calls at the start of `printWaybackResults`. -/
def consoleBanner (domain : String) : List String :=
  ["====================================================",
   " Wayback Services Hunting pour le domaine:" ++ " " ++ domain,
   "===================================================="]

/-- Source `printWaybackResults`: the texts of the print calls, in order. -/
def printWaybackResults (visit : List String → List String) (domain : String)
    (results : List WaybackResult) : List String :=
  let banner := consoleBanner domain
  if results.length = 0 then
    banner ++ ["Aucune URL archivée trouvée pour les patterns configurés."]
  else
    let groups := groupResults results
    let services := sortedServices visit groups
    banner ++ services.flatMap (fun s =>
      ["", "[" ++ s ++ "]"] ++ (groups.get s).map consoleLine)

/-- Source `escapeHTML`: the replacer of the five pairs `&`, `<`, `>`, the double quote
(code 34) and the apostrophe (code 39). -/
def escapeHTML (s : String) : String :=
  replacerReplace
    [('&', "&amp;"), ('<', "&lt;"), ('>', "&gt;"), (Char.ofNat 34, "&quot;"),
     (Char.ofNat 39, "&#39;")] s

/-- One table row of the HTML report for a result. -/
def htmlRow (r : WaybackResult) : String :=
  "<tr><td>" ++ (if r.Date ≠ "" then escapeHTML (formatWBDate r.Date) else "-") ++
    "</td><td><a href=\x22" ++ escapeHTML r.URL ++
    "\x22 target=\x22_blank\x22 rel=\x22noopener noreferrer\x22>" ++ escapeHTML r.URL ++
    "</a></td></tr>"

/-- The style sheet written into the head of the report. -/
def reportStyle : String :=
  "body\x7bfont-family:Arial,sans-serif;background:#020617;color:#e5e7eb;padding:20px\x7d" ++
  "h1,h2\x7bcolor:#fbbf24\x7d" ++
  "table\x7bborder-collapse:collapse;width:100%;margin-bottom:24px\x7d" ++
  "th,td\x7bborder:1px solid #1f2937;padding:6px 8px;font-size:13px\x7d" ++
  "th\x7bbackground:#0f172a\x7d" ++
  "tr:nth-child(even)\x7bbackground:#020617\x7d" ++
  "tr:nth-child(odd)\x7bbackground:#020617\x7d" ++
  "code\x7bbackground:#111827;padding:2px 4px;border-radius:4px;color:#93c5fd\x7d"

/-- What `writeWaybackHTMLReport` writes into its builder before it looks at the
results: the head of the document, the title and the time of the report. -/
def reportHead (now domain : String) : String :=
  "<!DOCTYPE html><html lang=\x22fr\x22><head><meta charset=\x22UTF-8\x22>" ++
  "<title>Wayback Services Hunting - " ++ escapeHTML domain ++ "</title><style>" ++
  reportStyle ++ "</style></head><body>" ++
  "<h1>Wayback Services Hunting - " ++ escapeHTML domain ++ "</h1>" ++
  "<p>Généré le " ++ escapeHTML now ++ "</p>"

/-- Source `writeWaybackHTMLReport`: the text that the function builds and writes to the
file. `now` is the formatted time of the call; creating the file and writing to it are
not part of the embedding. -/
def writeWaybackHTMLReport (visit : List String → List String) (now domain : String)
    (results : List WaybackResult) : String :=
  let head := reportHead now domain
  if results.length = 0 then
    head ++ "<p>Aucune URL archivée trouvée pour les patterns configurés.</p>" ++
      "</body></html>"
  else
    let grouped := groupResults results
    let services := sortedServices visit grouped
    head ++ String.join (services.map (fun s =>
      "<h2>" ++ escapeHTML s ++ "</h2>" ++
      "<table><thead><tr><th>Date</th><th>URL archivée</th></tr></thead><tbody>" ++
      String.join ((grouped.get s).map htmlRow) ++ "</tbody></table>")) ++
      "</body></html>"

/-- Source `sanitizeFilename`: the trimmed string with nine characters replaced by an
underscore, one `strings.ReplaceAll` after the other; code 92 is the backslash and code
34 the double quote. -/
def sanitizeFilename (s : String) : String :=
  let s := TrimSpace s
  let s := ReplaceAll s "/" "_"
  let s := ReplaceAll s (String.singleton (Char.ofNat 92)) "_"
  let s := ReplaceAll s ":" "_"
  let s := ReplaceAll s "*" "_"
  let s := ReplaceAll s "?" "_"
  let s := ReplaceAll s (String.singleton (Char.ofNat 34)) "_"
  let s := ReplaceAll s "<" "_"
  let s := ReplaceAll s ">" "_"
  let s := ReplaceAll s "|" "_"
  s

/-- The replacement of one character that the specification describes for HTML text. -/
def escapeChar (c : Char) : List Char :=
  if c = '&' then "&amp;".data
  else if c = '<' then "&lt;".data
  else if c = '>' then "&gt;".data
  else if c = Char.ofNat 34 then "&quot;".data
  else if c = Char.ofNat 39 then "&#39;".data
  else [c]

/-- The five entities without their leading `&`. -/
def entityTails : List (List Char) :=
  ["amp;".data, "lt;".data, "gt;".data, "quot;".data, "#39;".data]

/-- The nine characters that `sanitizeFilename` replaces: slash, backslash, colon, star,
question mark, double quote, less than, greater than and the vertical bar. -/
def hostileChars : List Char :=
  ['/', Char.ofNat 92, ':', '*', '?', Char.ofNat 34, '<', '>', '|']

/-- The results that one pattern contributes according to the specification: the entries
of a successful fetch, each with the service of the pattern, and nothing for a fetch
that fails. -/
def fetchedResults (archive : String → Except String (List (List String))) (debug : Bool)
    (p : servicePattern) : List WaybackResult :=
  match fetchWayback archive p.Pattern debug with
  | .error _ => []
  | .ok entries => entries.map (fun e => { Service := p.Service, URL := e.URL, Date := e.Date })

/-- The effect of `strings.ReplaceAll(s, x, "_")` on one character, for a character
`x`. -/
def underscoreFor (x c : Char) : Char := if c = x then '_' else c

/-- The fields of a timestamp `YYYYMMDDHHMMSS` are in range: month 01 to 12, a day that
exists in that month of that year, hour 00 to 23, minute and second 00 to 59. -/
def fieldsInRange (s : List Char) : Prop :=
  1 ≤ fieldValue s 4 2 ∧ fieldValue s 4 2 ≤ 12 ∧
    1 ≤ fieldValue s 6 2 ∧
    fieldValue s 6 2 ≤ calendarDays (fieldValue s 0 4) (fieldValue s 4 2) ∧
    fieldValue s 8 2 ≤ 23 ∧ fieldValue s 10 2 ≤ 59 ∧ fieldValue s 12 2 ≤ 59

instance fieldsInRange.decidable (s : List Char) : Decidable (fieldsInRange s) := by
  unfold fieldsInRange
  infer_instance

/-! ## The pattern catalog -/

theorem ite_append_self {α : Type} (c : Prop) [Decidable c] (p x : List α) :
    (if c then p ++ x else p) = p ++ (if c then x else []) := by
  split <;> simp

theorem isProviderEnabled_nil (k : String) : isProviderEnabled [] k = true := by
  unfold isProviderEnabled
  split <;> simp

theorem scan_iff (k : String) (P : List String) :
    isProviderEnabled.scan k P = true ↔ k ∈ P := by
  induction P with
  | nil => simp [isProviderEnabled.scan]
  | cons p ps ih =>
    unfold isProviderEnabled.scan
    by_cases h : p = k
    · simp [h]
    · have h2 : ¬ k = p := fun e => h e.symm
      simp [h, h2, ih]

theorem isProviderEnabled_iff (k : String) (P : List String) (hk : k ≠ "") (hP : P ≠ []) :
    isProviderEnabled P k = true ↔ k ∈ P := by
  unfold isProviderEnabled
  have hl : P.length ≠ 0 := by simpa using hP
  simp [hk, hl, scan_iff]

theorem buildServicePatterns_eq_foldl (D : String) (P : List String) :
    buildServicePatterns D P = blockSteps.foldl (fun pats b => b.2 D P pats) [] := rfl

/-- Every block appends to the slice it receives, and appends either nothing or the
patterns it would append under the empty filter. -/
theorem block_spec : ∀ b ∈ blockSteps,
    ∀ (D : String) (P : List String) (pats : List servicePattern),
      b.2 D P pats = pats ++ (if isProviderEnabled P b.1 then b.2 D [] [] else []) := by
  intro b hb D P pats
  simp only [blockSteps, List.mem_cons, List.mem_singleton, List.not_mem_nil, or_false] at hb
  rcases hb with h | h | h | h | h | h | h | h | h | h | h | h | h | h | h | h | h | h | h | h <;>
  subst h <;>
  simp only [googleBlock, sharepointBlock, onedriveBlock, dropboxBlock, boxBlock, githubBlock,
    gitlabBlock, atlassianBlock, notionBlock, slackBlock, trelloBlock, azureBlock, s3Block,
    gcsBlock, bitbucketBlock, pasteBlock, calendarBlock, zoomBlock, figmaBlock, firebaseBlock,
    List.range, List.range.loop, List.foldl, List.append_assoc, ite_append_self,
    List.cons_append, List.nil_append, isProviderEnabled_nil, if_true]

theorem foldl_blocks (D : String) (P : List String)
    (l : List (String × (String → List String → List servicePattern → List servicePattern)))
    (hl : ∀ b ∈ l, b ∈ blockSteps) (acc : List servicePattern) :
    l.foldl (fun pats b => b.2 D P pats) acc =
      acc ++ l.flatMap (fun b => if isProviderEnabled P b.1 then b.2 D [] [] else []) := by
  induction l generalizing acc with
  | nil => simp
  | cons b bs ih =>
    have hb := block_spec b (hl b (List.mem_cons_self _ _)) D P acc
    simp only [List.foldl_cons, List.flatMap_cons]
    rw [hb, ih (fun c hc => hl c (List.mem_cons_of_mem _ hc)), List.append_assoc]

/-- The block view of the source function: the enabled blocks, in source order. -/
theorem buildServicePatterns_eq_flatMap (D : String) (P : List String) :
    buildServicePatterns D P =
      blockSteps.flatMap (fun b => if isProviderEnabled P b.1 then b.2 D [] [] else []) := by
  rw [buildServicePatterns_eq_foldl, foldl_blocks D P blockSteps (fun _ h => h)]
  simp

theorem infix_mid (a d b : String) : List.IsInfix d.data (a ++ d ++ b).data := by
  simp only [String.data_append, List.append_assoc]
  exact List.infix_append' _ _ _

/-- What every block contributes: patterns tagged with the key of the block, whose
pattern string has the domain inside; the key is one of the twenty and is not empty. -/
theorem block_items : ∀ b ∈ blockSteps, ∀ (D : String),
    b.1 ≠ "" ∧ b.1 ∈ catalogKeys ∧
      ∀ q ∈ b.2 D [] [], q.Provider = b.1 ∧ List.IsInfix D.data q.Pattern.data := by
  intro b hb D
  simp only [blockSteps, List.mem_cons, List.mem_singleton, List.not_mem_nil, or_false] at hb
  rcases hb with h | h | h | h | h | h | h | h | h | h | h | h | h | h | h | h | h | h | h | h <;>
  subst h <;>
  refine ⟨by decide, by decide, ?_⟩ <;>
  simp only [googleBlock, sharepointBlock, onedriveBlock, dropboxBlock, boxBlock, githubBlock,
    gitlabBlock, atlassianBlock, notionBlock, slackBlock, trelloBlock, azureBlock, s3Block,
    gcsBlock, bitbucketBlock, pasteBlock, calendarBlock, zoomBlock, figmaBlock, firebaseBlock,
    List.range, List.range.loop, List.foldl, List.append_assoc,
    List.cons_append, List.nil_append, isProviderEnabled_nil, if_true,
    List.mem_cons, List.mem_singleton, List.not_mem_nil, or_false, forall_eq_or_imp, forall_eq,
    infix_mid, true_and, and_true]

theorem mem_buildServicePatterns {D : String} {P : List String} {q : servicePattern}
    (hq : q ∈ buildServicePatterns D P) :
    ∃ b ∈ blockSteps, isProviderEnabled P b.1 = true ∧ q ∈ b.2 D [] [] := by
  rw [buildServicePatterns_eq_flatMap, List.mem_flatMap] at hq
  obtain ⟨b, hb, hqb⟩ := hq
  by_cases he : isProviderEnabled P b.1 = true
  · exact ⟨b, hb, he, by simpa [he] using hqb⟩
  · simp [he] at hqb

/-- C1: every pattern returned by `buildServicePatterns D P` has a `Pattern` string that
contains `D` as a contiguous substring and, when `P` is not empty, a `Provider` that is
an element of `P`. -/
theorem buildServicePatterns_sound (D : String) (P : List String) (q : servicePattern)
    (hq : q ∈ buildServicePatterns D P) :
    List.IsInfix D.data q.Pattern.data ∧ (P ≠ [] → q.Provider ∈ P) := by
  obtain ⟨b, hb, he, hqb⟩ := mem_buildServicePatterns hq
  obtain ⟨hne, _, hitems⟩ := block_items b hb D
  obtain ⟨hprov, hinf⟩ := hitems q hqb
  refine ⟨hinf, fun hP => ?_⟩
  rw [hprov]
  exact (isProviderEnabled_iff b.1 P hne hP).mp he

theorem buildServicePatterns_sound_witness :
    (⟨"github_raw", "https://raw.githubusercontent.com/*example.com*/*", "github"⟩ :
        servicePattern) ∈ buildServicePatterns "example.com" ["box", "github"] ∧
      List.IsInfix "example.com".data "https://raw.githubusercontent.com/*example.com*/*".data ∧
      (["box", "github"] ≠ [] → "github" ∈ ["box", "github"]) :=
  ⟨by decide, buildServicePatterns_sound "example.com" ["box", "github"]
    ⟨"github_raw", "https://raw.githubusercontent.com/*example.com*/*", "github"⟩ (by decide)⟩

theorem providers_of_full_catalog (D : String) :
    (buildServicePatterns D []).map (fun q => q.Provider) =
      ["google", "google", "google", "google", "google", "google", "google", "google",
       "google", "google", "google", "google", "google", "google", "google",
       "sharepoint", "sharepoint", "onedrive", "dropbox", "dropbox", "box", "box",
       "github", "github", "gitlab", "atlassian", "atlassian", "notion", "slack", "slack",
       "trello", "azure", "azure", "s3", "s3", "gcs", "bitbucket", "paste", "paste",
       "calendar", "zoom", "figma", "firebase", "firebase"] := by
  simp only [buildServicePatterns, googleBlock, sharepointBlock, onedriveBlock, dropboxBlock,
    boxBlock, githubBlock, gitlabBlock, atlassianBlock, notionBlock, slackBlock, trelloBlock,
    azureBlock, s3Block, gcsBlock, bitbucketBlock, pasteBlock, calendarBlock, zoomBlock,
    figmaBlock, firebaseBlock, List.range, List.range.loop, List.foldl, List.append_assoc,
    List.cons_append, List.nil_append, isProviderEnabled_nil, if_true, List.map_cons,
    List.map_nil]

/-- C2: with the empty provider filter `buildServicePatterns` returns the full catalog,
44 patterns, and the `Provider` values that occur in it are exactly the twenty catalog
keys (a list of twenty distinct strings). -/
theorem buildServicePatterns_full_catalog (D : String) :
    (buildServicePatterns D []).length = 44 ∧
      (∀ k : String,
        k ∈ (buildServicePatterns D []).map (fun q => q.Provider) ↔ k ∈ catalogKeys) ∧
      catalogKeys.Nodup ∧ catalogKeys.length = 20 := by
  have hp := providers_of_full_catalog D
  refine ⟨?_, ?_, by decide, by decide⟩
  · have := congrArg List.length hp
    simpa using this
  · intro k
    rw [hp]
    constructor
    · revert k; decide
    · revert k; decide

/-- C3: a non-empty provider list none of whose elements is one of the twenty catalog
keys yields the empty pattern list. -/
theorem buildServicePatterns_unknown_keys (D : String) (P : List String) (hP : P ≠ [])
    (hunk : ∀ p ∈ P, p ∉ catalogKeys) : buildServicePatterns D P = [] := by
  rw [buildServicePatterns_eq_flatMap, List.flatMap_eq_nil_iff]
  intro b hb
  obtain ⟨hne, hkey, _⟩ := block_items b hb D
  have : ¬ isProviderEnabled P b.1 = true := fun he =>
    hunk b.1 ((isProviderEnabled_iff b.1 P hne hP).mp he) hkey
  simp [this]

theorem buildServicePatterns_unknown_keys_witness :
    buildServicePatterns "example.com" ["GitHub", "aws"] = [] :=
  buildServicePatterns_unknown_keys "example.com" ["GitHub", "aws"] (by decide) (by decide)

/-- The filter as a selection from the full catalog: under a non-empty filter the
result is the full catalog restricted to the patterns whose provider is listed. -/
theorem buildServicePatterns_eq_filter (D : String) (P : List String) (hP : P ≠ []) :
    buildServicePatterns D P =
      (buildServicePatterns D []).filter (fun q => decide (q.Provider ∈ P)) := by
  rw [buildServicePatterns_eq_flatMap, buildServicePatterns_eq_flatMap, List.filter_flatMap]
  apply List.flatMap_congr
  intro b hb
  obtain ⟨hne, _, hitems⟩ := block_items b hb D
  simp only [isProviderEnabled_nil, if_true]
  by_cases he : isProviderEnabled P b.1 = true
  · have hmem := (isProviderEnabled_iff b.1 P hne hP).mp he
    rw [if_pos he, eq_comm, List.filter_eq_self]
    intro q hq
    rw [(hitems q hq).1]
    simpa using hmem
  · have hmem : b.1 ∉ P := fun h => he ((isProviderEnabled_iff b.1 P hne hP).mpr h)
    rw [if_neg he, eq_comm, List.filter_eq_nil_iff]
    intro q hq
    rw [(hitems q hq).1]
    simpa using hmem

theorem buildServicePatterns_sublist (D : String) (P : List String) :
    List.Sublist (buildServicePatterns D P) (buildServicePatterns D []) := by
  by_cases hP : P = []
  · subst hP; exact List.Sublist.refl _
  · rw [buildServicePatterns_eq_filter D P hP]
    exact List.filter_sublist _

theorem services_of_full_catalog (D : String) :
    (buildServicePatterns D []).map (fun q => q.Service) =
      ["google_sites", "google_docs", "google_groups", "google_drive", "google_mail",
       "google_sheets", "google_sheets_legacy_0", "google_sheets_legacy_1",
       "google_sheets_legacy_2", "google_sheets_legacy_3", "google_sheets_legacy_4",
       "google_sheets_legacy_5", "google_sheets_legacy_6", "google_sheets_legacy_7",
       "google_sheets_legacy_8", "sharepoint_sites", "sharepoint_onedrive", "onedrive_short",
       "dropbox_shares", "dropbox_folders", "box_shares", "box_folders", "github_repos",
       "github_raw", "gitlab_repos", "confluence", "jira", "notion", "slack_files",
       "slack_workspace", "trello_boards", "azure_blob", "azure_sites", "aws_s3_bucket",
       "aws_s3_website", "gcs_bucket", "bitbucket_repos", "pastebin", "hastebin",
       "google_calendar", "zoom_meetings", "figma_files", "firebaseio_db",
       "firebase_storage"] := by
  simp only [buildServicePatterns, googleBlock, sharepointBlock, onedriveBlock, dropboxBlock,
    boxBlock, githubBlock, gitlabBlock, atlassianBlock, notionBlock, slackBlock, trelloBlock,
    azureBlock, s3Block, gcsBlock, bitbucketBlock, pasteBlock, calendarBlock, zoomBlock,
    figmaBlock, firebaseBlock, List.range, List.range.loop, List.foldl, List.append_assoc,
    List.cons_append, List.nil_append, isProviderEnabled_nil, if_true, List.map_cons,
    List.map_nil]
  decide

/-- C5: no two patterns of `buildServicePatterns D P` have the same `Service` value, the
nine legacy spreadsheet entries included. -/
theorem buildServicePatterns_service_nodup (D : String) (P : List String) :
    ((buildServicePatterns D P).map (fun q => q.Service)).Nodup := by
  refine List.Nodup.sublist ((buildServicePatterns_sublist D P).map _) ?_
  rw [services_of_full_catalog]
  decide

theorem provider_mem_catalogKeys {D : String} {q : servicePattern}
    (hq : q ∈ buildServicePatterns D []) : q.Provider ∈ catalogKeys := by
  obtain ⟨b, hb, _, hqb⟩ := mem_buildServicePatterns hq
  obtain ⟨_, hkey, hitems⟩ := block_items b hb D
  rw [(hitems q hqb).1]
  exact hkey

/-- Two non-empty filters with the same catalog keys select the same patterns. -/
theorem buildServicePatterns_congr_keys (D : String) (P P' : List String) (hP : P ≠ [])
    (hP' : P' ≠ []) (hkeys : ∀ k ∈ catalogKeys, (k ∈ P ↔ k ∈ P')) :
    buildServicePatterns D P = buildServicePatterns D P' := by
  rw [buildServicePatterns_eq_filter D P hP, buildServicePatterns_eq_filter D P' hP']
  apply List.filter_congr
  intro q hq
  have := hkeys q.Provider (provider_mem_catalogKeys hq)
  simp [this]

/-- C4, the claim as stated fails: `["GitHub"]` and `["github"]` have the same length and
are equal up to letter case, yet the first selects nothing and the second selects the two
github patterns. -/
theorem buildServicePatterns_case_sensitive :
    List.Forall₂ equalUpToCase ["GitHub"] ["github"] ∧
      buildServicePatterns "example.com" ["GitHub"] = [] ∧
      buildServicePatterns "example.com" ["github"] =
        [⟨"github_repos", "https://github.com/*example.com*/*", "github"⟩,
         ⟨"github_raw", "https://raw.githubusercontent.com/*example.com*/*", "github"⟩] ∧
      buildServicePatterns "example.com" ["GitHub"] ≠
        buildServicePatterns "example.com" ["github"] :=
  ⟨List.Forall₂.cons (by unfold equalUpToCase; decide) List.Forall₂.nil,
   by decide, by decide, by decide⟩

/-- C4, amended: the provider filter compares keys by exact string equality with the
lower-case catalog keys. Two filters that are both empty or both non-empty and that
contain the same catalog keys, spelled exactly, give the same pattern list; a key that
differs from a catalog key in letter case selects nothing. -/
theorem buildServicePatterns_exact_keys (D : String) (P P' : List String)
    (hnil : P = [] ↔ P' = []) (hkeys : ∀ k ∈ catalogKeys, (k ∈ P ↔ k ∈ P')) :
    buildServicePatterns D P = buildServicePatterns D P' := by
  by_cases hP : P = []
  · rw [hP, hnil.mp hP]
  · exact buildServicePatterns_congr_keys D P P' hP (fun h => hP (hnil.mpr h)) hkeys

theorem buildServicePatterns_exact_keys_witness :
    buildServicePatterns "example.com" ["GitHub", "s3", "github"] =
      buildServicePatterns "example.com" ["github", "s3"] :=
  buildServicePatterns_exact_keys "example.com" ["GitHub", "s3", "github"] ["github", "s3"]
    (by decide) (by decide)

/-- C6: under a non-empty filter `P` the result is the sublist of the full catalog made
of the patterns whose `Provider` is an element of `P`, in catalog order; so it depends
neither on the order nor on repetitions of the keys of `P`, and adding a key that is not
a catalog key changes nothing. -/
theorem buildServicePatterns_filter_catalog (D : String) (P : List String) (hP : P ≠ []) :
    buildServicePatterns D P =
        (buildServicePatterns D []).filter (fun q => decide (q.Provider ∈ P)) ∧
      (∀ P' : List String, P'.Perm P → buildServicePatterns D P' = buildServicePatterns D P) ∧
      (∀ P' : List String, P' ≠ [] → (∀ k, k ∈ P' ↔ k ∈ P) →
        buildServicePatterns D P' = buildServicePatterns D P) ∧
      (∀ u : String, u ∉ catalogKeys →
        buildServicePatterns D (u :: P) = buildServicePatterns D P) := by
  refine ⟨buildServicePatterns_eq_filter D P hP, ?_, ?_, ?_⟩
  · intro P' hperm
    have hP' : P' ≠ [] := fun h => hP (by simpa [h] using hperm.symm)
    exact buildServicePatterns_congr_keys D P' P hP' hP (fun k _ => hperm.mem_iff)
  · intro P' hP' hset
    exact buildServicePatterns_congr_keys D P' P hP' hP (fun k _ => hset k)
  · intro u hu
    refine buildServicePatterns_congr_keys D (u :: P) P (List.cons_ne_nil _ _) hP ?_
    intro k hk
    have hne : k ≠ u := fun h => hu (h ▸ hk)
    simp [hne]

theorem buildServicePatterns_filter_catalog_witness :
    buildServicePatterns "example.com" ["s3", "github"] =
        (buildServicePatterns "example.com" []).filter
          (fun q => decide (q.Provider ∈ ["s3", "github"])) ∧
      buildServicePatterns "example.com" ["github", "s3"] =
        buildServicePatterns "example.com" ["s3", "github"] ∧
      buildServicePatterns "example.com" ["github", "s3", "github"] =
        buildServicePatterns "example.com" ["s3", "github"] ∧
      buildServicePatterns "example.com" ["aws", "s3", "github"] =
        buildServicePatterns "example.com" ["s3", "github"] :=
  have h := buildServicePatterns_filter_catalog "example.com" ["s3", "github"] (by decide)
  ⟨h.1, h.2.1 ["github", "s3"] (List.Perm.swap _ _ _),
   h.2.2.1 ["github", "s3", "github"] (by decide) (by intro k; simp; tauto),
   h.2.2.2 "aws" (by decide)⟩

theorem isProviderEnabled_google (P : List String) :
    isProviderEnabled P "google" = true ↔ (P = [] ∨ "google" ∈ P) := by
  by_cases hP : P = []
  · simp [hP, isProviderEnabled_nil]
  · rw [isProviderEnabled_iff "google" P (by decide) hP]
    simp [hP]

theorem googleBlock_full (D : String) :
    googleBlock D [] [] = googleBase D ++ (List.range 9).map (legacySheet D) := by
  simp only [googleBlock, isProviderEnabled_nil, if_true, List.range, List.range.loop,
    List.foldl, List.append_assoc, List.cons_append, List.nil_append, googleBase, legacySheet,
    List.map_cons, List.map_nil]

theorem blockSteps_tail_keys :
    (blockSteps.tail.map fun b => b.1) =
      ["sharepoint", "onedrive", "dropbox", "box", "github", "gitlab", "atlassian", "notion",
       "slack", "trello", "azure", "s3", "gcs", "bitbucket", "paste", "calendar", "zoom",
       "figma", "firebase"] := rfl

theorem buildServicePatterns_split (D : String) (P : List String) :
    buildServicePatterns D P =
      (if isProviderEnabled P "google" then googleBlock D [] [] else []) ++
        blockSteps.tail.flatMap
          (fun b => if isProviderEnabled P b.1 then b.2 D [] [] else []) := by
  rw [buildServicePatterns_eq_flatMap]
  rfl

theorem not_google_after_first_block (D : String) (P : List String) :
    ∀ q ∈ blockSteps.tail.flatMap
        (fun b => if isProviderEnabled P b.1 then b.2 D [] [] else []),
      q.Provider ≠ "google" := by
  intro q hq
  rw [List.mem_flatMap] at hq
  obtain ⟨b, hb, hqb⟩ := hq
  have hbs : b ∈ blockSteps := List.mem_of_mem_tail hb
  have hkey : b.1 ∈ blockSteps.tail.map (fun b => b.1) := List.mem_map_of_mem _ hb
  rw [blockSteps_tail_keys] at hkey
  have hq' : q ∈ b.2 D [] [] := by
    by_cases he : isProviderEnabled P b.1 = true
    · simpa [he] using hqb
    · simp [he] at hqb
  rw [((block_items b hbs D).2.2 q hq').1]
  intro h
  rw [h] at hkey
  revert hkey
  decide

/-- C7: when the provider list enables google (it is empty or contains `"google"`), the
result starts with the six base google patterns, directly followed by the nine legacy
spreadsheet patterns for `i = 0, …, 8` in increasing order, each with pattern
`https://spreadsheets<i>.google.com/a/<D>/*` and provider `google`, and no later pattern
has provider `google`; when google is not enabled, no pattern with provider `google`,
hence none of the legacy patterns, is emitted. -/
theorem buildServicePatterns_google_legacy (D : String) (P : List String) :
    ((P = [] ∨ "google" ∈ P) →
        ∃ others : List servicePattern,
          buildServicePatterns D P =
            googleBase D ++ (List.range 9).map (legacySheet D) ++ others ∧
          ∀ q ∈ others, q.Provider ≠ "google") ∧
      ((P ≠ [] ∧ "google" ∉ P) →
        (∀ q ∈ buildServicePatterns D P, q.Provider ≠ "google") ∧
          ∀ i : Nat, legacySheet D i ∉ buildServicePatterns D P) := by
  constructor
  · intro h
    have he := (isProviderEnabled_google P).mpr h
    refine ⟨_, ?_, not_google_after_first_block D P⟩
    rw [buildServicePatterns_split, if_pos he, googleBlock_full]
  · intro h
    have he : ¬ isProviderEnabled P "google" = true := fun he =>
      ((isProviderEnabled_google P).mp he).elim h.1 h.2
    have hall : ∀ q ∈ buildServicePatterns D P, q.Provider ≠ "google" := by
      rw [buildServicePatterns_split, if_neg he, List.nil_append]
      exact not_google_after_first_block D P
    exact ⟨hall, fun i hi => hall _ hi rfl⟩

theorem buildServicePatterns_google_legacy_witness :
    (∃ others : List servicePattern,
        buildServicePatterns "example.com" ["zoom", "google"] =
          googleBase "example.com" ++ (List.range 9).map (legacySheet "example.com") ++ others ∧
        ∀ q ∈ others, q.Provider ≠ "google") ∧
      ((∀ q ∈ buildServicePatterns "example.com" ["zoom"], q.Provider ≠ "google") ∧
        ∀ i : Nat, legacySheet "example.com" i ∉ buildServicePatterns "example.com" ["zoom"]) :=
  ⟨(buildServicePatterns_google_legacy "example.com" ["zoom", "google"]).1 (by decide),
   (buildServicePatterns_google_legacy "example.com" ["zoom"]).2 (by decide)⟩

/-! ## The archive client -/

theorem rows_after_header (rows : List (List String)) (entries : List wbEntry) :
    fetchWayback.rows rows false entries =
      entries ++ (rows.filter (fun row => decide (3 ≤ row.length))).map
        (fun row => { Date := row.getD 1 "", URL := row.getD 2 "" }) := by
  induction rows generalizing entries with
  | nil => simp [fetchWayback.rows]
  | cons row rest ih =>
    unfold fetchWayback.rows
    by_cases h : row.length < 3
    · have h3 : ¬ 3 ≤ row.length := by omega
      simp [h, h3, ih]
    · have h3 : 3 ≤ row.length := by omega
      have h1 : row[1]?.getD "" = row[1] := by
        rw [List.getElem?_eq_getElem (by omega)]; rfl
      have h2 : row[2]?.getD "" = row[2] := by
        rw [List.getElem?_eq_getElem (by omega)]; rfl
      simp [h, h3, ih, h1, h2]

theorem rows_eq_specEntries (raw : List (List String)) :
    fetchWayback.rows raw true [] = specEntries raw := by
  cases raw with
  | nil => simp [fetchWayback.rows, specEntries]
  | cons header rest =>
    unfold fetchWayback.rows
    simp [rows_after_header, specEntries]

/-- C8: for every decoded response `raw` the call succeeds and returns, in order, the
entry `(Date = row[1], URL = row[2])` of each row after the first that has at least
three columns; the first row is discarded whatever it contains; an empty or header-only
response gives no entry; and when all rows after the first have at least three columns
the number of entries is the number of those rows. -/
theorem fetchWayback_rows (raw : List (List String)) (pattern : String) (debug : Bool) :
    fetchWayback (fun _ => .ok raw) pattern debug = .ok (specEntries raw) ∧
      (∀ header header2 : List String, ∀ rest : List (List String),
        specEntries (header :: rest) = specEntries (header2 :: rest)) ∧
      specEntries [] = [] ∧
      (∀ header : List String, specEntries [header] = []) ∧
      ((∀ row ∈ raw.drop 1, 3 ≤ row.length) →
        (specEntries raw).length = raw.length - 1) := by
  refine ⟨?_, ?_, by simp [specEntries], by simp [specEntries], ?_⟩
  · simp [fetchWayback, rows_eq_specEntries]
  · intro header header2 rest
    simp [specEntries]
  · intro hall
    have hf : (raw.drop 1).filter (fun row => decide (3 ≤ row.length)) = raw.drop 1 := by
      rw [List.filter_eq_self]
      intro row hrow
      simpa using hall row hrow
    rw [specEntries, hf, List.length_map, List.length_drop]

theorem fetchWayback_rows_witness :
    fetchWayback (fun _ => .ok [["urlkey", "timestamp", "original"],
        ["com,example)/", "20200101000000", "http://example.com/"], ["short", "row"],
        ["k", "20210615120000", "http://example.com/a", "text/html"]]) "p" false =
      .ok [⟨"20200101000000", "http://example.com/"⟩,
           ⟨"20210615120000", "http://example.com/a"⟩] :=
  (fetchWayback_rows [["urlkey", "timestamp", "original"],
        ["com,example)/", "20200101000000", "http://example.com/"], ["short", "row"],
        ["k", "20210615120000", "http://example.com/a", "text/html"]] "p" false).1

/-! ## Dates -/

theorem isDigitByte_iff (c : Char) : isDigitByte c = true ↔ c.isDigit = true := by
  simp only [isDigitByte, Char.isDigit, Char.toNat, UInt32.le_def, Fin.le_def, decide_eq_true_eq,
    Bool.and_eq_true, ge_iff_le, BitVec.le_def]
  exact Iff.rfl

theorem digitValue_le {c : Char} (h : isDigitByte c = true) : digitValue c ≤ 9 := by
  simp only [isDigitByte, decide_eq_true_eq] at h
  unfold digitValue
  omega

/-- A digit character is the digit character of its value. -/
theorem digitChar_digitValue {c : Char} (h : isDigitByte c = true) :
    Nat.digitChar (digitValue c) = c := by
  simp only [isDigitByte, decide_eq_true_eq] at h
  have hc : Char.ofNat c.toNat = c := Char.ofNat_toNat c
  unfold digitValue
  have hcases : c.toNat = 48 ∨ c.toNat = 49 ∨ c.toNat = 50 ∨ c.toNat = 51 ∨ c.toNat = 52 ∨
      c.toNat = 53 ∨ c.toNat = 54 ∨ c.toNat = 55 ∨ c.toNat = 56 ∨ c.toNat = 57 := by omega
  rcases hcases with h' | h' | h' | h' | h' | h' | h' | h' | h' | h' <;>
  · rw [h'] at hc ⊢
    rw [← hc]
    decide

theorem not_sign_of_digit {c : Char} (h : isDigitByte c = true) : c ≠ '-' ∧ c ≠ '+' := by
  constructor <;>
  · intro hc
    rw [hc] at h
    revert h
    decide

theorem getnum_two (a b : Char) (tl : List Char) (fixed : Bool) (ha : isDigitByte a = true)
    (hb : isDigitByte b = true) :
    getnum (a :: b :: tl) fixed = some (digitValue a * 10 + digitValue b, tl) := by
  simp [getnum, isDigit, ha, hb]

theorem getnum_bad_first (a : Char) (tl : List Char) (fixed : Bool)
    (ha : isDigitByte a = false) : getnum (a :: tl) fixed = none := by
  simp [getnum, isDigit, ha]

theorem getnum_bad_second (a b : Char) (tl : List Char) (hb : isDigitByte b = false) :
    getnum (a :: b :: tl) true = none := by
  simp [getnum, isDigit, hb]

theorem getnum_one (a b : Char) (tl : List Char) (ha : isDigitByte a = true)
    (hb : isDigitByte b = false) :
    getnum (a :: b :: tl) false = some (digitValue a, b :: tl) := by
  simp [getnum, isDigit, ha, hb]

theorem atoi_four (a b c d : Char) (ha : isDigitByte a = true) (hb : isDigitByte b = true)
    (hc : isDigitByte c = true) (hd : isDigitByte d = true) :
    atoi [a, b, c, d] =
      some (((((digitValue a * 10 + digitValue b) * 10 + digitValue c) * 10 +
        digitValue d : Nat) : Int)) := by
  have h1 := digitValue_le ha
  have h2 := digitValue_le hb
  have h3 := digitValue_le hc
  have h4 := digitValue_le hd
  have hs := not_sign_of_digit ha
  have e1 : ¬ digitValue a > 2 ^ 63 := by norm_num; omega
  have e2 : ¬ digitValue a > 2 ^ 63 / 10 := by norm_num; omega
  have e3 : ¬ digitValue a * 10 + digitValue b > 2 ^ 63 := by norm_num; omega
  have e4 : ¬ digitValue a * 10 + digitValue b > 2 ^ 63 / 10 := by norm_num; omega
  have e5 : ¬ (digitValue a * 10 + digitValue b) * 10 + digitValue c > 2 ^ 63 := by
    norm_num; omega
  have e6 : ¬ (digitValue a * 10 + digitValue b) * 10 + digitValue c > 2 ^ 63 / 10 := by
    norm_num; omega
  have e7 : ¬ ((digitValue a * 10 + digitValue b) * 10 + digitValue c) * 10 + digitValue d
      > 2 ^ 63 := by norm_num; omega
  have e0 : ¬ (0 : Nat) > 2 ^ 63 / 10 := by norm_num
  simp only [atoi, List.head?_cons, Option.some.injEq, hs.1, hs.2, or_self, if_false,
    leadingInt, ha, hb, hc, hd, Bool.not_true, Bool.false_eq_true, e0, e1, e2, e3, e4, e5, e6,
    e7, Nat.zero_mul, Nat.zero_add, List.length_nil, gt_iff_lt, Nat.lt_irrefl, decide_False]

theorem leadingInt_rem (s : List Char) (x : Nat) (h : ∃ c ∈ s, isDigitByte c = false) :
    ∀ q rem, leadingInt s x = some (q, rem) → rem.length > 0 := by
  induction s generalizing x with
  | nil => simp at h
  | cons c cs ih =>
    intro q rem hres
    unfold leadingInt at hres
    by_cases hc : isDigitByte c = true
    · have hex : ∃ c ∈ cs, isDigitByte c = false := by
        obtain ⟨c', hmem, hc'⟩ := h
        rcases List.mem_cons.mp hmem with rfl | hmem'
        · rw [hc] at hc'; cases hc'
        · exact ⟨c', hmem', hc'⟩
      simp only [hc, Bool.not_true, Bool.false_eq_true, if_false] at hres
      split at hres
      · cases hres
      · split at hres
        · cases hres
        · exact ih _ hex q rem hres
    · simp only [hc, Bool.not_false, if_true, Option.some.injEq, Prod.mk.injEq] at hres
      rw [← hres.2]
      simp

theorem atoi_bad (a b c d : Char) (ha : isDigitByte a = true)
    (h : isDigitByte b = false ∨ isDigitByte c = false ∨ isDigitByte d = false) :
    atoi [a, b, c, d] = none := by
  have hs := not_sign_of_digit ha
  have hex : ∃ x ∈ [a, b, c, d], isDigitByte x = false := by
    rcases h with h | h | h
    · exact ⟨b, by simp, h⟩
    · exact ⟨c, by simp, h⟩
    · exact ⟨d, by simp, h⟩
  have hrem := leadingInt_rem [a, b, c, d] 0 hex
  simp only [atoi, List.head?_cons, Option.some.injEq, hs.1, hs.2, or_self, if_false]
  cases hli : leadingInt [a, b, c, d] 0 with
  | none => rfl
  | some r =>
    obtain ⟨q, rem⟩ := r
    have := hrem q rem hli
    simp [this]

theorem timeParse_digits (c0 c1 c2 c3 c4 c5 c6 c7 c8 c9 c10 c11 c12 c13 : Char)
    (h0 : isDigitByte c0 = true) (h1 : isDigitByte c1 = true) (h2 : isDigitByte c2 = true)
    (h3 : isDigitByte c3 = true) (h4 : isDigitByte c4 = true) (h5 : isDigitByte c5 = true)
    (h6 : isDigitByte c6 = true) (h7 : isDigitByte c7 = true) (h8 : isDigitByte c8 = true)
    (h9 : isDigitByte c9 = true) (h10 : isDigitByte c10 = true) (h11 : isDigitByte c11 = true)
    (h12 : isDigitByte c12 = true) (h13 : isDigitByte c13 = true) :
    timeParse [c0, c1, c2, c3, c4, c5, c6, c7, c8, c9, c10, c11, c12, c13] =
      if 1 ≤ digitValue c4 * 10 + digitValue c5 ∧ digitValue c4 * 10 + digitValue c5 ≤ 12 ∧
          digitValue c8 * 10 + digitValue c9 ≤ 23 ∧
          digitValue c10 * 10 + digitValue c11 ≤ 59 ∧
          digitValue c12 * 10 + digitValue c13 ≤ 59 ∧
          1 ≤ digitValue c6 * 10 + digitValue c7 ∧
          digitValue c6 * 10 + digitValue c7 ≤
            daysIn (digitValue c4 * 10 + digitValue c5)
              ((((digitValue c0 * 10 + digitValue c1) * 10 + digitValue c2) * 10 +
                digitValue c3 : Nat) : Int) then
        some { year := ((((digitValue c0 * 10 + digitValue c1) * 10 + digitValue c2) * 10 +
                 digitValue c3 : Nat) : Int),
               month := digitValue c4 * 10 + digitValue c5,
               day := digitValue c6 * 10 + digitValue c7,
               hour := digitValue c8 * 10 + digitValue c9,
               min := digitValue c10 * 10 + digitValue c11,
               sec := digitValue c12 * 10 + digitValue c13 }
      else none := by
  have hd0 : isDigit [c0, c1, c2, c3, c4, c5, c6, c7, c8, c9, c10, c11, c12, c13] 0 = true := by
    simp [isDigit, h0]
  simp only [timeParse, hd0, List.length_cons, List.length_nil, List.take_succ_cons,
    List.take_zero, List.drop_succ_cons, List.drop_zero, atoi_four _ _ _ _ h0 h1 h2 h3,
    getnum_two _ _ _ _ h4 h5, getnum_two _ _ _ _ h6 h7, getnum_two _ _ _ _ h8 h9,
    getnum_two _ _ _ _ h10 h11, getnum_two _ _ _ _ h12 h13]
  generalize daysIn (digitValue c4 * 10 + digitValue c5)
    ((((digitValue c0 * 10 + digitValue c1) * 10 + digitValue c2) * 10 + digitValue c3 : Nat) :
      Int) = dmax
  generalize ((((digitValue c0 * 10 + digitValue c1) * 10 + digitValue c2) * 10 +
    digitValue c3 : Nat) : Int) = year
  generalize digitValue c4 * 10 + digitValue c5 = month
  generalize digitValue c6 * 10 + digitValue c7 = day
  generalize digitValue c8 * 10 + digitValue c9 = hour
  generalize digitValue c10 * 10 + digitValue c11 = minute
  generalize digitValue c12 * 10 + digitValue c13 = second
  have e1 : (decide (0 + 1 + 1 + 1 + 1 + 1 + 1 + 1 + 1 + 1 + 1 + 1 + 1 + 1 + 1 < 4) || !true)
      = false := by decide
  have e2 : (decide (0 ≥ 2) && commaOrPeriod (([] : List Char).getD 0 ' ') && isDigit [] 1)
      = false := by decide
  simp only [e1, e2, Bool.false_eq_true, if_false, List.length_nil, ne_eq, not_true_eq_false]
  split_ifs <;> first | rfl | (exfalso; omega)

theorem length_le_utf8ByteSize (l : List Char) : l.length ≤ String.utf8ByteSize.go l := by
  induction l with
  | nil => simp [String.utf8ByteSize.go]
  | cons c cs ih =>
    have := c.utf8Size_pos
    simp only [String.utf8ByteSize.go, List.length_cons]
    omega

theorem utf8Size_of_digit {c : Char} (h : isDigitByte c = true) : c.utf8Size = 1 := by
  simp only [isDigitByte, decide_eq_true_eq, Char.toNat] at h
  have h7 : c.val ≤ 127 := by
    rw [UInt32.le_def, BitVec.le_def]
    show c.val.toNat ≤ 127
    omega
  simp [Char.utf8Size, h7]

theorem utf8ByteSize_of_digits (l : List Char) (h : ∀ c ∈ l, isDigitByte c = true) :
    String.utf8ByteSize.go l = l.length := by
  induction l with
  | nil => simp [String.utf8ByteSize.go]
  | cons c cs ih =>
    have hc := utf8Size_of_digit (h c (List.mem_cons_self _ _))
    have := ih (fun x hx => h x (List.mem_cons_of_mem _ hx))
    simp only [String.utf8ByteSize.go, List.length_cons]
    omega

theorem getnum_fixed_some {s rest : List Char} {n : Nat} (h : getnum s true = some (n, rest)) :
    ∃ a b, s = a :: b :: rest ∧ isDigitByte a = true ∧ isDigitByte b = true ∧
      n = digitValue a * 10 + digitValue b := by
  rcases s with _ | ⟨a, _ | ⟨b, tl⟩⟩
  · simp [getnum, isDigit] at h
  · simp [getnum, isDigit] at h
  · cases ha : isDigitByte a
    · rw [getnum_bad_first _ _ _ ha] at h; cases h
    · cases hb : isDigitByte b
      · rw [getnum_bad_second _ _ _ hb] at h; cases h
      · rw [getnum_two _ _ _ _ ha hb] at h
        simp only [Option.some.injEq, Prod.mk.injEq] at h
        exact ⟨a, b, by rw [h.2], ha, hb, h.1.symm⟩

theorem getnum_free_some {s rest : List Char} {n : Nat} (h : getnum s false = some (n, rest)) :
    (∃ a b, s = a :: b :: rest ∧ isDigitByte a = true ∧ isDigitByte b = true ∧
      n = digitValue a * 10 + digitValue b) ∨ isDigit rest 0 = false := by
  rcases s with _ | ⟨a, _ | ⟨b, tl⟩⟩
  · simp [getnum, isDigit] at h
  · cases ha : isDigitByte a
    · rw [getnum_bad_first _ _ _ ha] at h; cases h
    · simp [getnum, isDigit, ha] at h
      right
      rw [h.2]
      simp [isDigit]
  · cases ha : isDigitByte a
    · rw [getnum_bad_first _ _ _ ha] at h; cases h
    · cases hb : isDigitByte b
      · rw [getnum_one _ _ _ ha hb] at h
        simp only [Option.some.injEq, Prod.mk.injEq] at h
        right
        rw [← h.2]
        simp [isDigit, hb]
      · rw [getnum_two _ _ _ _ ha hb] at h
        simp only [Option.some.injEq, Prod.mk.injEq] at h
        exact Or.inl ⟨a, b, by rw [h.2], ha, hb, h.1.symm⟩

theorem year_chunk_some {value : List Char} {year : Int}
    (hlen : ¬ (value.length < 4 || !isDigit value 0) = true)
    (h : atoi (value.take 4) = some year) :
    ∃ a b c d rest, value = a :: b :: c :: d :: rest ∧ isDigitByte a = true ∧
      isDigitByte b = true ∧ isDigitByte c = true ∧ isDigitByte d = true := by
  rcases value with _ | ⟨a, _ | ⟨b, _ | ⟨c, _ | ⟨d, rest⟩⟩⟩⟩
  · simp at hlen
  · simp at hlen
  · simp at hlen
  · simp at hlen
  · have ha : isDigitByte a = true := by
      simpa [isDigit] using hlen
    simp only [List.take_succ_cons, List.take_zero] at h
    cases hb : isDigitByte b
    · rw [atoi_bad _ _ _ _ ha (Or.inl hb)] at h; cases h
    cases hc : isDigitByte c
    · rw [atoi_bad _ _ _ _ ha (Or.inr (Or.inl hc))] at h; cases h
    cases hd : isDigitByte d
    · rw [atoi_bad _ _ _ _ ha (Or.inr (Or.inr hd))] at h; cases h
    exact ⟨a, b, c, d, rest, rfl, ha, hb, hc, hd⟩

theorem timeParse_some_shape {l : List Char} {t : Time} (h : timeParse l = some t) :
    ∃ c0 c1 c2 c3 c4 c5 c6 c7 c8 c9 c10 c11 c12 c13 frac,
      l = c0 :: c1 :: c2 :: c3 :: c4 :: c5 :: c6 :: c7 :: c8 :: c9 :: c10 :: c11 :: c12 ::
        c13 :: frac ∧
      (∀ c ∈ [c0, c1, c2, c3, c4, c5, c6, c7, c8, c9, c10, c11, c12, c13],
        isDigitByte c = true) ∧
      (frac = [] ∨ 2 ≤ frac.length) := by
  unfold timeParse at h
  split at h
  · cases h
  rename_i hlen
  simp only [] at h
  split at h
  · cases h
  rename_i year hyear
  obtain ⟨c0, c1, c2, c3, rest, rfl, h0, h1, h2, h3⟩ := year_chunk_some hlen hyear
  simp only [List.drop_succ_cons, List.drop_zero] at h
  split at h
  · cases h
  rename_i month v1 hmonth
  obtain ⟨c4, c5, rfl, h4, h5, -⟩ := getnum_fixed_some hmonth
  split at h
  · cases h
  split at h
  · cases h
  rename_i day v2 hday
  obtain ⟨c6, c7, rfl, h6, h7, -⟩ := getnum_fixed_some hday
  split at h
  · cases h
  rename_i hour v3 hhour
  split at h
  · cases h
  split at h
  · cases h
  rename_i minute v4 hminute
  obtain ⟨c10, c11, rfl, h10, h11, -⟩ := getnum_fixed_some hminute
  rcases getnum_free_some hhour with ⟨c8, c9, rfl, h8, h9, -⟩ | hbad
  swap
  · simp [isDigit, h10] at hbad
  split at h
  · cases h
  split at h
  · cases h
  rename_i second v5 hsecond
  obtain ⟨c12, c13, rfl, h12, h13, -⟩ := getnum_fixed_some hsecond
  split at h
  · cases h
  refine ⟨c0, c1, c2, c3, c4, c5, c6, c7, c8, c9, c10, c11, c12, c13, v5, rfl, ?_, ?_⟩
  · intro c hc
    simp only [List.mem_cons, List.mem_singleton, List.not_mem_nil, or_false] at hc
    rcases hc with rfl | rfl | rfl | rfl | rfl | rfl | rfl | rfl | rfl | rfl | rfl | rfl | rfl |
      rfl <;> assumption
  · by_cases hfrac : (decide (v5.length ≥ 2) && commaOrPeriod (v5.getD 0 ' ') && isDigit v5 1)
        = true
    · right
      simp only [Bool.and_eq_true, decide_eq_true_eq] at hfrac
      exact hfrac.1.1
    · left
      rw [if_neg hfrac] at h
      split at h
      · cases h
      · rename_i hz
        exact List.length_eq_zero.mp (not_not.mp hz)

theorem daysIn_eq_calendarDays (y m : Nat) (h1 : 1 ≤ m) (h12 : m ≤ 12) :
    daysIn m (y : Int) = calendarDays y m := by
  have hleap : (isLeap (y : Int) = true) ↔ ((y % 4 = 0 ∧ y % 100 ≠ 0) ∨ y % 400 = 0) := by
    simp only [isLeap, decide_eq_true_eq]
    omega
  interval_cases m
  case «2» =>
    by_cases hl : isLeap (y : Int) = true
    · simp [daysIn, calendarDays, hl, hleap.mp hl]
    · have hn : ¬ ((y % 4 = 0 ∧ y % 100 ≠ 0) ∨ y % 400 = 0) := fun h => hl (hleap.mpr h)
      simp only [daysIn, calendarDays, hl, daysBefore]
      rw [if_neg hn]
      simp
  all_goals simp [daysIn, calendarDays, daysBefore]

theorem appendInt_two (a b : Char) (ha : isDigitByte a = true) (hb : isDigitByte b = true) :
    appendInt ((digitValue a * 10 + digitValue b : Nat) : Int) 2 = [a, b] := by
  have h1 := digitValue_le ha
  have h2 := digitValue_le hb
  have e1 : (digitValue a * 10 + digitValue b) / 10 % 10 = digitValue a := by omega
  have e2 : (digitValue a * 10 + digitValue b) % 10 = digitValue b := by omega
  have e3 : digitValue a * 10 + digitValue b < 10 ^ 2 := by norm_num; omega
  have e4 : ¬ ((digitValue a * 10 + digitValue b : Nat) : Int) < 0 := by omega
  simp only [appendInt, Int.natAbs_ofNat, e3, e4, if_true, if_false, fixedDigits, e1, e2,
    digitChar_digitValue ha, digitChar_digitValue hb, List.nil_append, List.cons_append]

theorem appendInt_four (a b c d : Char) (ha : isDigitByte a = true) (hb : isDigitByte b = true)
    (hc : isDigitByte c = true) (hd : isDigitByte d = true) :
    appendInt ((((digitValue a * 10 + digitValue b) * 10 + digitValue c) * 10 +
      digitValue d : Nat) : Int) 4 = [a, b, c, d] := by
  have h1 := digitValue_le ha
  have h2 := digitValue_le hb
  have h3 := digitValue_le hc
  have h4 := digitValue_le hd
  generalize hn : ((digitValue a * 10 + digitValue b) * 10 + digitValue c) * 10 +
    digitValue d = n
  have e1 : n / 10 / 10 / 10 % 10 = digitValue a := by omega
  have e2 : n / 10 / 10 % 10 = digitValue b := by omega
  have e3 : n / 10 % 10 = digitValue c := by omega
  have e4 : n % 10 = digitValue d := by omega
  have e5 : n < 10 ^ 4 := by norm_num; omega
  have e6 : ¬ ((n : Nat) : Int) < 0 := by omega
  simp only [appendInt, Int.natAbs_ofNat, e5, e6, if_true, if_false, fixedDigits, e1, e2, e3,
    e4, digitChar_digitValue ha, digitChar_digitValue hb, digitChar_digitValue hc,
    digitChar_digitValue hd, List.nil_append, List.cons_append]

theorem length_fourteen {l : List Char} (h : l.length = 14) :
    ∃ c0 c1 c2 c3 c4 c5 c6 c7 c8 c9 c10 c11 c12 c13,
      l = [c0, c1, c2, c3, c4, c5, c6, c7, c8, c9, c10, c11, c12, c13] := by
  rcases l with _ | ⟨c0, _ | ⟨c1, _ | ⟨c2, _ | ⟨c3, _ | ⟨c4, _ | ⟨c5, _ | ⟨c6, _ | ⟨c7,
    _ | ⟨c8, _ | ⟨c9, _ | ⟨c10, _ | ⟨c11, _ | ⟨c12, _ | ⟨c13, _ | ⟨x, tl⟩⟩⟩⟩⟩⟩⟩⟩⟩⟩⟩⟩⟩⟩⟩ <;>
    simp only [List.length_cons, List.length_nil] at h <;> try omega
  exact ⟨c0, c1, c2, c3, c4, c5, c6, c7, c8, c9, c10, c11, c12, c13, rfl⟩

theorem validStamp_digits (c0 c1 c2 c3 c4 c5 c6 c7 c8 c9 c10 c11 c12 c13 : Char)
    (hd : ∀ c ∈ [c0, c1, c2, c3, c4, c5, c6, c7, c8, c9, c10, c11, c12, c13],
      isDigitByte c = true) :
    validStamp [c0, c1, c2, c3, c4, c5, c6, c7, c8, c9, c10, c11, c12, c13] ↔
      (1 ≤ digitValue c4 * 10 + digitValue c5 ∧ digitValue c4 * 10 + digitValue c5 ≤ 12 ∧
          digitValue c8 * 10 + digitValue c9 ≤ 23 ∧
          digitValue c10 * 10 + digitValue c11 ≤ 59 ∧
          digitValue c12 * 10 + digitValue c13 ≤ 59 ∧
          1 ≤ digitValue c6 * 10 + digitValue c7 ∧
          digitValue c6 * 10 + digitValue c7 ≤
            daysIn (digitValue c4 * 10 + digitValue c5)
              ((((digitValue c0 * 10 + digitValue c1) * 10 + digitValue c2) * 10 +
                digitValue c3 : Nat) : Int)) := by
  have hdig : ∀ c ∈ [c0, c1, c2, c3, c4, c5, c6, c7, c8, c9, c10, c11, c12, c13],
      c.isDigit = true := fun c hc => (isDigitByte_iff c).mp (hd c hc)
  have f0 : fieldValue [c0, c1, c2, c3, c4, c5, c6, c7, c8, c9, c10, c11, c12, c13] 0 4 =
      ((digitValue c0 * 10 + digitValue c1) * 10 + digitValue c2) * 10 + digitValue c3 := by
    simp [fieldValue]
  have f4 : fieldValue [c0, c1, c2, c3, c4, c5, c6, c7, c8, c9, c10, c11, c12, c13] 4 2 =
      digitValue c4 * 10 + digitValue c5 := by simp [fieldValue]
  have f6 : fieldValue [c0, c1, c2, c3, c4, c5, c6, c7, c8, c9, c10, c11, c12, c13] 6 2 =
      digitValue c6 * 10 + digitValue c7 := by simp [fieldValue]
  have f8 : fieldValue [c0, c1, c2, c3, c4, c5, c6, c7, c8, c9, c10, c11, c12, c13] 8 2 =
      digitValue c8 * 10 + digitValue c9 := by simp [fieldValue]
  have f10 : fieldValue [c0, c1, c2, c3, c4, c5, c6, c7, c8, c9, c10, c11, c12, c13] 10 2 =
      digitValue c10 * 10 + digitValue c11 := by simp [fieldValue]
  have f12 : fieldValue [c0, c1, c2, c3, c4, c5, c6, c7, c8, c9, c10, c11, c12, c13] 12 2 =
      digitValue c12 * 10 + digitValue c13 := by simp [fieldValue]
  unfold validStamp
  rw [f0, f4, f6, f8, f10, f12]
  constructor
  · rintro ⟨-, -, m1, m12, d1, dmax, hh, hm, hs⟩
    rw [daysIn_eq_calendarDays _ _ m1 m12]
    exact ⟨m1, m12, hh, hm, hs, d1, dmax⟩
  · rintro ⟨m1, m12, hh, hm, hs, d1, dmax⟩
    rw [daysIn_eq_calendarDays _ _ m1 m12] at dmax
    exact ⟨rfl, hdig, m1, m12, d1, dmax, hh, hm, hs⟩

theorem utf8ByteSize_eq_go (raw : String) :
    raw.utf8ByteSize = String.utf8ByteSize.go raw.data := by
  cases raw
  rfl

theorem formatWBDate_of_valid (raw : String) (h : validStamp raw.data) :
    formatWBDate raw = String.mk (isoShape raw.data) := by
  obtain ⟨c0, c1, c2, c3, c4, c5, c6, c7, c8, c9, c10, c11, c12, c13, hl⟩ := length_fourteen h.1
  have hd : ∀ c ∈ [c0, c1, c2, c3, c4, c5, c6, c7, c8, c9, c10, c11, c12, c13],
      isDigitByte c = true := fun c hc => (isDigitByte_iff c).mpr (h.2.1 c (hl ▸ hc))
  have hsize : raw.utf8ByteSize = 14 := by
    rw [utf8ByteSize_eq_go, hl, utf8ByteSize_of_digits _ hd]
    rfl
  rw [hl] at h
  have hcond := (validStamp_digits _ _ _ _ _ _ _ _ _ _ _ _ _ _ hd).mp h
  have h0 := hd c0 (by simp)
  have h1 := hd c1 (by simp)
  have h2 := hd c2 (by simp)
  have h3 := hd c3 (by simp)
  have h4 := hd c4 (by simp)
  have h5 := hd c5 (by simp)
  have h6 := hd c6 (by simp)
  have h7 := hd c7 (by simp)
  have h8 := hd c8 (by simp)
  have h9 := hd c9 (by simp)
  have h10 := hd c10 (by simp)
  have h11 := hd c11 (by simp)
  have h12 := hd c12 (by simp)
  have h13 := hd c13 (by simp)
  have hp := timeParse_digits c0 c1 c2 c3 c4 c5 c6 c7 c8 c9 c10 c11 c12 c13 h0 h1 h2 h3 h4 h5 h6
    h7 h8 h9 h10 h11 h12 h13
  rw [if_pos hcond] at hp
  unfold formatWBDate
  rw [if_neg (by simp [hsize]), hl, hp]
  simp only [formatRFC3339, appendInt_four _ _ _ _ h0 h1 h2 h3, appendInt_two _ _ h4 h5,
    appendInt_two _ _ h6 h7, appendInt_two _ _ h8 h9, appendInt_two _ _ h10 h11,
    appendInt_two _ _ h12 h13, isoShape]
  rfl

theorem formatWBDate_of_not_valid (raw : String) (h : ¬ validStamp raw.data) :
    formatWBDate raw = raw := by
  unfold formatWBDate
  by_cases hsize : raw.utf8ByteSize ≠ 14
  · rw [if_pos hsize]
  · rw [if_neg hsize]
    cases htp : timeParse raw.data with
    | none => rfl
    | some t =>
      exfalso
      apply h
      obtain ⟨c0, c1, c2, c3, c4, c5, c6, c7, c8, c9, c10, c11, c12, c13, frac, hl, hd,
        hfrac⟩ := timeParse_some_shape htp
      have hlen : raw.data.length ≤ 14 := by
        have := length_le_utf8ByteSize raw.data
        rw [← utf8ByteSize_eq_go] at this
        omega
      have hnil : frac = [] := by
        rcases hfrac with hf | hf
        · exact hf
        · rw [hl] at hlen
          simp only [List.length_cons] at hlen
          omega
      subst hnil
      rw [hl] at htp ⊢
      rw [timeParse_digits c0 c1 c2 c3 c4 c5 c6 c7 c8 c9 c10 c11 c12 c13 (hd _ (by simp))
        (hd _ (by simp)) (hd _ (by simp)) (hd _ (by simp)) (hd _ (by simp)) (hd _ (by simp))
        (hd _ (by simp)) (hd _ (by simp)) (hd _ (by simp)) (hd _ (by simp)) (hd _ (by simp))
        (hd _ (by simp)) (hd _ (by simp)) (hd _ (by simp))] at htp
      apply (validStamp_digits _ _ _ _ _ _ _ _ _ _ _ _ _ _ hd).mpr
      by_contra hc
      rw [if_neg hc] at htp
      cases htp

/-- C9: a 14-character string of decimal digits `YYYYMMDDHHMMSS` that denotes a valid
calendar date and time is turned by `formatWBDate` into the 20-character string
`YYYY-MM-DDTHH:MM:SSZ` made of the same digits, with the suffix `Z` and no numeric
offset. -/
theorem formatWBDate_valid (raw : String) (h : validStamp raw.data) :
    formatWBDate raw = String.mk (isoShape raw.data) ∧ (formatWBDate raw).length = 20 ∧
      (formatWBDate raw).data.getLast? = some 'Z' := by
  have hf := formatWBDate_of_valid raw h
  obtain ⟨c0, c1, c2, c3, c4, c5, c6, c7, c8, c9, c10, c11, c12, c13, hl⟩ := length_fourteen h.1
  refine ⟨hf, ?_, ?_⟩
  · rw [hf, hl]
    rfl
  · rw [hf, hl]
    rfl

theorem formatWBDate_valid_witness :
    validStamp "20210615120000".data ∧
      formatWBDate "20210615120000" = "2021-06-15T12:00:00Z" :=
  ⟨by decide, (formatWBDate_valid "20210615120000" (by decide)).1.trans (by decide)⟩

/-- C10: `formatWBDate` is total and returns its input unchanged when the input is not
14 bytes (or not 14 characters) long, and when a 14-character input fails timestamp
parsing: a character that is not a decimal digit, a month outside 01 to 12, a day
outside the days of that month, an hour above 23, a minute or a second above 59. -/
theorem formatWBDate_unchanged (raw : String)
    (h : raw.utf8ByteSize ≠ 14 ∨ raw.length ≠ 14 ∨
      (∃ c ∈ raw.data, c.isDigit = false) ∨
      fieldValue raw.data 4 2 < 1 ∨ 12 < fieldValue raw.data 4 2 ∨
      fieldValue raw.data 6 2 < 1 ∨
      calendarDays (fieldValue raw.data 0 4) (fieldValue raw.data 4 2) <
        fieldValue raw.data 6 2 ∨
      23 < fieldValue raw.data 8 2 ∨ 59 < fieldValue raw.data 10 2 ∨
      59 < fieldValue raw.data 12 2) :
    formatWBDate raw = raw := by
  rcases h with h | h
  · unfold formatWBDate
    rw [if_pos h]
  · apply formatWBDate_of_not_valid
    rintro ⟨hlen, hdig, m1, m12, d1, dmax, hh, hm, hs⟩
    rcases h with h | ⟨c, hc, hcd⟩ | h | h | h | h | h | h | h
    · exact h hlen
    · rw [hdig c hc] at hcd
      cases hcd
    all_goals omega

theorem formatWBDate_unchanged_witness :
    formatWBDate "2021" = "2021" ∧ formatWBDate "2021061512000é" = "2021061512000é" ∧
      formatWBDate "2021-06-15 12:" = "2021-06-15 12:" ∧
      formatWBDate "20211315120000" = "20211315120000" ∧
      formatWBDate "20210230120000" = "20210230120000" ∧
      formatWBDate "20210615240000" = "20210615240000" ∧
      formatWBDate "20210615126000" = "20210615126000" ∧
      formatWBDate "20210615120060" = "20210615120060" :=
  ⟨formatWBDate_unchanged "2021" (by decide),
   formatWBDate_unchanged "2021061512000é" (by decide),
   formatWBDate_unchanged "2021-06-15 12:" (by decide),
   formatWBDate_unchanged "20211315120000" (by decide),
   formatWBDate_unchanged "20210230120000" (by decide),
   formatWBDate_unchanged "20210615240000" (by decide),
   formatWBDate_unchanged "20210615126000" (by decide),
   formatWBDate_unchanged "20210615120060" (by decide)⟩

/-! ## Sorting the service names -/


theorem lexLess_iff (x y : List Char) : lexLess x y = true ↔ x < y := by
  induction x generalizing y with
  | nil =>
    cases y with
    | nil => simp [lexLess]
    | cons b bs => simp [lexLess, List.nil_lt_cons]
  | cons a as ih =>
    cases y with
    | nil => simp [lexLess]
    | cons b bs =>
      have hab : a.toNat < b.toNat ↔ a < b := Iff.rfl
      have hba : b.toNat < a.toNat ↔ b < a := Iff.rfl
      unfold lexLess
      by_cases h1 : a.toNat < b.toNat
      · simp only [h1, if_true, true_iff]
        exact List.Lex.rel (hab.mp h1)
      · by_cases h2 : b.toNat < a.toNat
        · simp only [h1, h2, if_true, if_false, Bool.false_eq_true, false_iff]
          intro hlt
          cases hlt with
          | cons h => exact h1 h2
          | rel h => exact h1 (hab.mpr h)
        · have heq : a = b := by
            apply Char.ext
            apply UInt32.ext
            show a.toNat = b.toNat
            omega
          subst heq
          simp only [h1, if_false, ih]
          constructor
          · intro h
            exact List.Lex.cons h
          · intro h
            cases h with
            | cons h => exact h
            | rel h => exact absurd (hab.mpr h) h1

theorem stringLess_iff (x y : String) : stringLess x y = true ↔ x < y := by
  rw [String.lt_iff_toList_lt]
  exact lexLess_iff x.data y.data

theorem getD_append_cons (pre : List String) (x : String) (rest : List String) (d : String) :
    (pre ++ x :: rest).getD pre.length d = x := by
  induction pre with
  | nil => rfl
  | cons p ps ih => simpa using ih

theorem set_append_cons (pre : List String) (x y : String) (rest : List String) :
    (pre ++ x :: rest).set pre.length y = pre ++ y :: rest := by
  induction pre with
  | nil => rfl
  | cons p ps ih => simp [ih]

theorem sweep_length (x : String) (l : List String) : (sweep x l).2.length = l.length := by
  induction l generalizing x with
  | nil => rfl
  | cons y ys ih =>
    unfold sweep
    split <;> simp [ih]

theorem sweep_perm (x : String) (l : List String) :
    ((sweep x l).1 :: (sweep x l).2).Perm (x :: l) := by
  induction l generalizing x with
  | nil => exact List.Perm.refl _
  | cons y ys ih =>
    unfold sweep
    split
    · exact (List.Perm.swap _ _ _).trans ((ih y).cons x)
    · exact ((List.Perm.swap _ _ _).trans ((ih x).cons y)).trans (List.Perm.swap _ _ _)

theorem sweep_min (x : String) (l : List String) :
    (sweep x l).1 ≤ x ∧ ∀ z ∈ (sweep x l).2, (sweep x l).1 ≤ z := by
  induction l generalizing x with
  | nil => simp [sweep]
  | cons y ys ih =>
    unfold sweep
    by_cases h : stringLess y x = true
    · have hyx : y < x := (stringLess_iff y x).mp h
      obtain ⟨h1, h2⟩ := ih y
      simp only [h, if_true]
      refine ⟨le_trans h1 (le_of_lt hyx), ?_⟩
      intro z hz
      rcases List.mem_cons.mp hz with rfl | hz
      · exact le_trans h1 (le_of_lt hyx)
      · exact h2 z hz
    · have hxy : x ≤ y := not_lt.mp (fun hlt => h ((stringLess_iff y x).mpr hlt))
      obtain ⟨h1, h2⟩ := ih x
      simp only [h, if_false]
      refine ⟨h1, ?_⟩
      intro z hz
      rcases List.mem_cons.mp hz with rfl | hz
      · exact le_trans h1 hxy
      · exact h2 z hz

/-- The inner loop started at `j` on a slice `pre ++ x :: mid ++ rest` with `x` at
position `i` and `rest` from position `j` on: it leaves `pre` and `mid` in place and
sweeps `rest`. -/
theorem inner_eq (rest pre : List String) (x : String) (mid : List String) :
    sortStrings.inner pre.length rest.length (pre.length + 1 + mid.length)
        (pre ++ x :: (mid ++ rest)) =
      pre ++ (sweep x rest).1 :: (mid ++ (sweep x rest).2) := by
  induction rest generalizing x mid with
  | nil => simp [sortStrings.inner, sweep]
  | cons y ys ih =>
    have hj : pre.length + 1 + mid.length = (pre ++ x :: mid).length := by simp; omega
    have hgj : (pre ++ x :: (mid ++ y :: ys)).getD (pre.length + 1 + mid.length) "" = y := by
      rw [hj]
      have := getD_append_cons (pre ++ x :: mid) y ys ""
      simpa using this
    have hgi : (pre ++ x :: (mid ++ y :: ys)).getD pre.length "" = x :=
      getD_append_cons pre x (mid ++ y :: ys) ""
    simp only [List.length_cons, sortStrings.inner, hgj, hgi]
    by_cases h : stringLess y x = true
    · have hswap : swapAt (pre ++ x :: (mid ++ y :: ys)) pre.length
          (pre.length + 1 + mid.length) = pre ++ y :: ((mid ++ [x]) ++ ys) := by
        unfold swapAt
        rw [hgj, hgi, set_append_cons, hj]
        have h1 : (pre ++ y :: mid).length = (pre ++ x :: mid).length := by simp
        have := set_append_cons (pre ++ y :: mid) y x ys
        rw [h1] at this
        simp at this ⊢
      have hidx : pre.length + 1 + mid.length + 1 = pre.length + 1 + (mid ++ [x]).length := by
        simp; omega
      simp only [h, if_true, hswap, hidx, ih y (mid ++ [x]), sweep]
      simp
    · have hmid : pre ++ x :: (mid ++ y :: ys) = pre ++ x :: ((mid ++ [y]) ++ ys) := by simp
      have hidx : pre.length + 1 + mid.length + 1 = pre.length + 1 + (mid ++ [y]).length := by
        simp; omega
      simp only [h, if_false, Bool.false_eq_true]
      rw [hmid, hidx, ih x (mid ++ [y])]
      simp [sweep, h]

/-- The outer loop from position `i` on a slice `pre ++ rest` with `rest` starting at
position `i`: it leaves `pre` in place and turns `rest` into a sorted permutation. -/
theorem outer_spec (n : Nat) (pre rest : List String) (hlen : rest.length = n + 1) :
    ∃ sorted : List String,
      sortStrings.outer n pre.length (pre ++ rest) = pre ++ sorted ∧
        sorted.Perm rest ∧ List.Sorted (· ≤ ·) sorted := by
  induction n generalizing pre rest with
  | zero =>
    refine ⟨rest, rfl, List.Perm.refl _, ?_⟩
    match rest, hlen with
    | [x], _ => exact List.sorted_singleton x
  | succ n ih =>
    match rest, hlen with
    | x :: r, hlen =>
      have hr : r.length = n + 1 := by simpa using hlen
      have hcount : (pre ++ x :: r).length - (pre.length + 1) = r.length := by
        simp only [List.length_append, List.length_cons]
        omega
      have hinner := inner_eq r pre x []
      simp only [List.length_nil, Nat.add_zero, List.nil_append] at hinner
      have hl2 : (sweep x r).2.length = n + 1 := by rw [sweep_length, hr]
      obtain ⟨s, hs, hperm, hsorted⟩ := ih (pre ++ [(sweep x r).1]) (sweep x r).2 hl2
      refine ⟨(sweep x r).1 :: s, ?_, ?_, ?_⟩
      · simp only [sortStrings.outer, hcount, hinner]
        have hpre : (pre ++ [(sweep x r).1]).length = pre.length + 1 := by simp
        rw [hpre] at hs
        simpa using hs
      · exact (hperm.cons _).trans (sweep_perm x r)
      · refine List.sorted_cons.mpr ⟨?_, hsorted⟩
        intro z hz
        exact (sweep_min x r).2 z (hperm.mem_iff.mp hz)

theorem sortStrings_spec (a : List String) :
    (sortStrings a).Perm a ∧ List.Sorted (· ≤ ·) (sortStrings a) := by
  unfold sortStrings
  by_cases h : a.length < 2
  · rw [if_pos h]
    refine ⟨List.Perm.refl _, ?_⟩
    match a, h with
    | [], _ => exact List.sorted_nil
    | [x], _ => exact List.sorted_singleton x
  · rw [if_neg h]
    obtain ⟨s, hs, hperm, hsorted⟩ := outer_spec (a.length - 1) [] a (by omega)
    simp only [List.length_nil, List.nil_append] at hs
    rw [hs]
    exact ⟨hperm, hsorted⟩

/-- C20: after `sortStrings(a)` the slice is a permutation of its original content, of
the same length, in non-decreasing lexicographic order; slices of length 0 or 1 are
left unchanged. -/
theorem sortStrings_sorted_perm (a : List String) :
    (sortStrings a).Perm a ∧ (sortStrings a).length = a.length ∧
      List.Sorted (· ≤ ·) (sortStrings a) ∧
      (∀ (i j : Nat) (hij : i < j) (hj : j < (sortStrings a).length),
        stringLess ((sortStrings a)[j]) ((sortStrings a)[i]) = false) ∧
      (a.length < 2 → sortStrings a = a) := by
  obtain ⟨hperm, hsorted⟩ := sortStrings_spec a
  refine ⟨hperm, hperm.length_eq, hsorted, ?_, ?_⟩
  · intro i j hij hj
    have hle : (sortStrings a)[i] ≤ (sortStrings a)[j] :=
      List.pairwise_iff_getElem.mp hsorted i j (by omega) hj hij
    cases hb : stringLess ((sortStrings a)[j]) ((sortStrings a)[i]) with
    | false => rfl
    | true => exact absurd ((stringLess_iff _ _).mp hb) (not_lt.mpr hle)
  · intro h
    simp [sortStrings, h]

theorem sortStrings_sorted_perm_witness :
    sortStrings ["zoom_meetings", "github_raw", "jira", "github_raw", "Jira"] =
        ["Jira", "github_raw", "github_raw", "jira", "zoom_meetings"] ∧
      sortStrings ["notion"] = ["notion"] :=
  ⟨by decide, (sortStrings_sorted_perm ["notion"]).2.2.2.2 (by decide)⟩

/-! ## Grouping by service -/

theorem get_put_same (g : Groups) (k : String) (v : List WaybackResult) :
    (g.put k v).get k = v := by
  induction g with
  | nil => simp [Groups.put, Groups.get]
  | cons kv rest ih =>
    obtain ⟨k', v'⟩ := kv
    by_cases h : k' = k
    · simp [Groups.put, Groups.get, h]
    · simp [Groups.put, Groups.get, h, ih]

theorem get_put_other (g : Groups) (k k' : String) (v : List WaybackResult) (h : k' ≠ k) :
    (g.put k v).get k' = g.get k' := by
  induction g with
  | nil =>
    have h2 : ¬ k = k' := fun e => h e.symm
    simp [Groups.put, Groups.get, h2]
  | cons kv rest ih =>
    obtain ⟨k0, v0⟩ := kv
    by_cases h0 : k0 = k
    · subst h0
      have h2 : ¬ k0 = k' := fun e => h e.symm
      simp [Groups.put, Groups.get, h2]
    · by_cases h1 : k0 = k'
      · subst h1
        simp [Groups.put, Groups.get, h]
      · simp [Groups.put, Groups.get, h0, h1, ih]

theorem keys_put (g : Groups) (k : String) (v : List WaybackResult) :
    (g.put k v).keys = if k ∈ g.keys then g.keys else g.keys ++ [k] := by
  induction g with
  | nil => simp [Groups.put, Groups.keys]
  | cons kv rest ih =>
    obtain ⟨k0, v0⟩ := kv
    by_cases h0 : k0 = k
    · subst h0
      simp [Groups.put, Groups.keys]
    · have h2 : ¬ k = k0 := fun e => h0 e.symm
      simp only [Groups.keys] at ih
      simp only [Groups.put, Groups.keys, h0, if_false, List.map_cons, List.mem_cons, h2,
        false_or, ih]
      split <;> simp

/-- After the grouping loop started from `g`, the group of `k` is what it was, followed
by the results of service `k` in their order. -/
theorem get_foldl (results : List WaybackResult) (g : Groups) (k : String) :
    (results.foldl (fun groups r => groups.put r.Service (groups.get r.Service ++ [r])) g).get k =
      g.get k ++ results.filter (fun r => decide (r.Service = k)) := by
  induction results generalizing g with
  | nil => simp
  | cons r rs ih =>
    simp only [List.foldl_cons, ih]
    by_cases h : r.Service = k
    · subst h
      simp [get_put_same]
    · have h2 : k ≠ r.Service := fun e => h e.symm
      simp [get_put_other _ _ _ _ h2, h]

theorem mem_keys_foldl (results : List WaybackResult) (g : Groups) (k : String) :
    k ∈ (results.foldl
        (fun groups r => groups.put r.Service (groups.get r.Service ++ [r])) g).keys ↔
      k ∈ g.keys ∨ ∃ r ∈ results, r.Service = k := by
  induction results generalizing g with
  | nil => simp
  | cons r rs ih =>
    simp only [List.foldl_cons, ih, keys_put]
    by_cases hm : r.Service ∈ g.keys
    · simp only [hm, if_true, List.mem_cons, exists_eq_or_imp]
      constructor
      · rintro (h | h)
        · exact Or.inl h
        · exact Or.inr (Or.inr h)
      · rintro (h | h | h)
        · exact Or.inl h
        · exact Or.inl (h ▸ hm)
        · exact Or.inr h
    · simp only [hm, if_false, List.mem_append, List.mem_singleton, List.mem_cons,
        exists_eq_or_imp, List.not_mem_nil, or_false]
      constructor
      · rintro ((h | h) | h)
        · exact Or.inl h
        · exact Or.inr (Or.inl h.symm)
        · exact Or.inr (Or.inr h)
      · rintro (h | h | h)
        · exact Or.inl (Or.inl h)
        · exact Or.inl (Or.inr h.symm)
        · exact Or.inr h

theorem nodup_keys_foldl (results : List WaybackResult) (g : Groups) (hg : g.keys.Nodup) :
    (results.foldl
      (fun groups r => groups.put r.Service (groups.get r.Service ++ [r])) g).keys.Nodup := by
  induction results generalizing g with
  | nil => simpa using hg
  | cons r rs ih =>
    simp only [List.foldl_cons]
    apply ih
    rw [keys_put]
    by_cases hm : r.Service ∈ g.keys
    · simpa [hm] using hg
    · simp only [hm, if_false]
      exact List.Nodup.append hg (List.nodup_singleton _) (by simpa using hm)

theorem get_groupResults (results : List WaybackResult) (k : String) :
    (groupResults results).get k = results.filter (fun r => decide (r.Service = k)) := by
  unfold groupResults
  rw [get_foldl]
  simp [Groups.get]

theorem mem_keys_groupResults (results : List WaybackResult) (k : String) :
    k ∈ (groupResults results).keys ↔ ∃ r ∈ results, r.Service = k := by
  unfold groupResults
  rw [mem_keys_foldl]
  simp [Groups.keys]

theorem nodup_keys_groupResults (results : List WaybackResult) :
    (groupResults results).keys.Nodup :=
  nodup_keys_foldl results [] (by simp [Groups.keys])

theorem flatMap_filter_perm (ks : List String) (hnd : ks.Nodup) (results : List WaybackResult)
    (hall : ∀ r ∈ results, r.Service ∈ ks) :
    (ks.flatMap (fun k => results.filter (fun r => decide (r.Service = k)))).Perm results := by
  induction ks generalizing results with
  | nil =>
    cases results with
    | nil => simp
    | cons r rs => exact absurd (hall r (List.mem_cons_self _ _)) (List.not_mem_nil _)
  | cons k ks ih =>
    obtain ⟨hk, hnd'⟩ := List.nodup_cons.mp hnd
    have hrest : ∀ r ∈ results.filter (fun r => !decide (r.Service = k)), r.Service ∈ ks := by
      intro r hr
      obtain ⟨hmem, hne⟩ := List.mem_filter.mp hr
      rcases List.mem_cons.mp (hall r hmem) with h | h
      · simp [h] at hne
      · exact h
    have hcongr : ks.flatMap (fun k' => results.filter (fun r => decide (r.Service = k'))) =
        ks.flatMap (fun k' => (results.filter (fun r => !decide (r.Service = k))).filter
          (fun r => decide (r.Service = k'))) := by
      apply List.flatMap_congr
      intro k' hk'
      rw [List.filter_filter]
      apply List.filter_congr
      intro r _
      by_cases h : r.Service = k'
      · have hne : r.Service ≠ k := fun e => hk (e ▸ h ▸ hk')
        simp [h, hne]
        exact fun e => hne (h.trans e)
      · simp [h]
    rw [List.flatMap_cons, hcongr]
    exact (List.Perm.append_left _ (ih hnd' _ hrest)).trans (List.filter_append_perm _ _)

theorem sortedServices_perm (visit : List String → List String)
    (hvisit : ∀ ks, (visit ks).Perm ks) (groups : Groups) :
    (sortedServices visit groups).Perm groups.keys :=
  (sortStrings_spec _).1.trans (hvisit _)

/-- The sorted service names do not depend on the order in which the keys are visited. -/
theorem sortedServices_visit (visit visit' : List String → List String)
    (hvisit : ∀ ks, (visit ks).Perm ks) (hvisit' : ∀ ks, (visit' ks).Perm ks)
    (groups : Groups) : sortedServices visit groups = sortedServices visit' groups :=
  List.eq_of_perm_of_sorted
    ((sortedServices_perm visit hvisit groups).trans
      (sortedServices_perm visit' hvisit' groups).symm)
    (sortStrings_spec _).2 (sortStrings_spec _).2

/-- C11: grouping by service in the renderers loses and duplicates nothing. The groups
of the service names that the renderers walk through, put one after the other, are a
permutation of the results; every result is in the group of its own service and in no
other group; no group is empty. -/
theorem groupResults_partition (visit : List String → List String)
    (hvisit : ∀ ks, (visit ks).Perm ks) (results : List WaybackResult) :
    ((sortedServices visit (groupResults results)).flatMap
        (groupResults results).get).Perm results ∧
      (∀ r ∈ results, r ∈ (groupResults results).get r.Service ∧
        List.count r ((groupResults results).get r.Service) = List.count r results ∧
        ∀ k, r ∈ (groupResults results).get k → k = r.Service) ∧
      (∀ k ∈ (groupResults results).keys, (groupResults results).get k ≠ []) ∧
      (∀ k ∈ sortedServices visit (groupResults results), (groupResults results).get k ≠ []) := by
  have hkeys : ∀ k ∈ (groupResults results).keys, (groupResults results).get k ≠ [] := by
    intro k hk
    obtain ⟨r, hr, hrk⟩ := (mem_keys_groupResults results k).mp hk
    rw [get_groupResults]
    intro hnil
    have : r ∈ results.filter (fun r => decide (r.Service = k)) :=
      List.mem_filter.mpr ⟨hr, by simpa using hrk⟩
    rw [hnil] at this
    exact List.not_mem_nil _ this
  refine ⟨?_, ?_, hkeys, ?_⟩
  · refine ((sortedServices_perm visit hvisit _).flatMap_right _).trans ?_
    have hfun : (groupResults results).get =
        fun k => results.filter (fun r => decide (r.Service = k)) := by
      funext k
      exact get_groupResults results k
    rw [hfun]
    exact flatMap_filter_perm _ (nodup_keys_groupResults results) results
      (fun r hr => (mem_keys_groupResults results r.Service).mpr ⟨r, hr, rfl⟩)
  · intro r hr
    refine ⟨?_, ?_, ?_⟩
    · rw [get_groupResults]
      exact List.mem_filter.mpr ⟨hr, by simp⟩
    · rw [get_groupResults]
      exact List.count_filter (by simp)
    · intro k hk
      rw [get_groupResults] at hk
      have := (List.mem_filter.mp hk).2
      exact (of_decide_eq_true this).symm
  · intro k hk
    exact hkeys k ((sortedServices_perm visit hvisit _).mem_iff.mp hk)

theorem groupResults_partition_witness :
    (groupResults [⟨"jira", "u1", "1"⟩, ⟨"box_shares", "u2", ""⟩, ⟨"jira", "u3", "3"⟩]).get
        "jira" = [⟨"jira", "u1", "1"⟩, ⟨"jira", "u3", "3"⟩] ∧
      ((sortedServices List.reverse
          (groupResults [⟨"jira", "u1", "1"⟩, ⟨"box_shares", "u2", ""⟩,
            ⟨"jira", "u3", "3"⟩])).flatMap
        (groupResults [⟨"jira", "u1", "1"⟩, ⟨"box_shares", "u2", ""⟩,
          ⟨"jira", "u3", "3"⟩]).get).Perm
        [⟨"jira", "u1", "1"⟩, ⟨"box_shares", "u2", ""⟩, ⟨"jira", "u3", "3"⟩] :=
  ⟨by decide,
   (groupResults_partition List.reverse (fun ks => List.reverse_perm ks)
     [⟨"jira", "u1", "1"⟩, ⟨"box_shares", "u2", ""⟩, ⟨"jira", "u3", "3"⟩]).1⟩

/-! ## The orchestrator -/

theorem foldl_append_results (p : servicePattern) (entries : List wbEntry)
    (results : List WaybackResult) :
    entries.foldl (fun results e =>
        results ++ [{ Service := p.Service, URL := e.URL, Date := e.Date }]) results =
      results ++ entries.map
        (fun e => { Service := p.Service, URL := e.URL, Date := e.Date }) := by
  induction entries generalizing results with
  | nil => simp
  | cons e es ih => simp [ih]

/-- The loop over the patterns: every pattern is queried, in order, and contributes its
fetched results. -/
theorem patterns_loop (archive : String → Except String (List (List String))) (debug : Bool)
    (ps : List servicePattern) (results : List WaybackResult) (queried : List String) :
    runForDomainWayback.patterns archive debug ps (results, queried) =
      (results ++ ps.flatMap (fetchedResults archive debug),
        queried ++ ps.map (fun p => p.Pattern)) := by
  induction ps generalizing results queried with
  | nil => simp [runForDomainWayback.patterns]
  | cons p rest ih =>
    unfold runForDomainWayback.patterns
    cases hf : fetchWayback archive p.Pattern debug with
    | error e => simp [ih, fetchedResults, hf]
    | ok entries => simp [ih, fetchedResults, hf, foldl_append_results]

theorem runForDomainWayback_ok (archive : String → Except String (List (List String)))
    (domain : String) (providers : List String) (debug : Bool)
    (h : TrimSpace domain ≠ "") :
    runForDomainWayback archive domain providers debug =
      { results := (buildServicePatterns (TrimSpace domain) providers).flatMap
          (fetchedResults archive debug),
        err := none,
        queried := (buildServicePatterns (TrimSpace domain) providers).map
          (fun p => p.Pattern) } := by
  simp [runForDomainWayback, h, patterns_loop]

/-- C16: `runForDomainWayback` returns an error exactly when the domain is empty after
trimming; it then returns no result and queries no pattern; in every other case it
returns a result list and no error. -/
theorem runForDomainWayback_error_iff (archive : String → Except String (List (List String)))
    (domain : String) (providers : List String) (debug : Bool) :
    ((runForDomainWayback archive domain providers debug).err ≠ none ↔
        TrimSpace domain = "") ∧
      (TrimSpace domain = "" →
        runForDomainWayback archive domain providers debug =
          { results := [], err := some "domaine vide", queried := [] }) ∧
      (TrimSpace domain ≠ "" →
        (runForDomainWayback archive domain providers debug).err = none) := by
  by_cases h : TrimSpace domain = ""
  · simp [runForDomainWayback, h]
  · simp [runForDomainWayback_ok archive domain providers debug h, h]

theorem runForDomainWayback_error_iff_witness :
    runForDomainWayback (fun _ => .ok [["h"], ["k", "1", "u"]]) " \t " ["github"] true =
        { results := [], err := some "domaine vide", queried := [] } ∧
      (runForDomainWayback (fun _ => .error "timeout") " example.com " ["github"] true).err =
        none :=
  ⟨(runForDomainWayback_error_iff (fun _ => .ok [["h"], ["k", "1", "u"]]) " \t " ["github"]
      true).2.1 (by decide),
   (runForDomainWayback_error_iff (fun _ => .error "timeout") " example.com " ["github"]
      true).2.2 (by decide)⟩

/-- C17: for a domain that is not blank, every pattern of
`buildServicePatterns (TrimSpace domain) providers` is passed to `fetchWayback` exactly
once, in catalog order, whether or not earlier fetches failed; the result is the
concatenation, in pattern order, of the entries of the successful fetches, each with the
service of its pattern and the URL and date of the entry; a failed fetch contributes
nothing. So every result has the service of a pattern of the catalog. -/
theorem runForDomainWayback_results (archive : String → Except String (List (List String)))
    (domain : String) (providers : List String) (debug : Bool)
    (h : TrimSpace domain ≠ "") :
    (runForDomainWayback archive domain providers debug).queried =
        (buildServicePatterns (TrimSpace domain) providers).map (fun p => p.Pattern) ∧
      (runForDomainWayback archive domain providers debug).results =
        (buildServicePatterns (TrimSpace domain) providers).flatMap
          (fetchedResults archive debug) ∧
      (runForDomainWayback archive domain providers debug).err = none ∧
      (∀ p : servicePattern, ∀ e, fetchWayback archive p.Pattern debug = .error e →
        fetchedResults archive debug p = []) ∧
      (∀ p : servicePattern, ∀ entries, fetchWayback archive p.Pattern debug = .ok entries →
        fetchedResults archive debug p =
          entries.map (fun e => { Service := p.Service, URL := e.URL, Date := e.Date })) ∧
      (∀ r ∈ (runForDomainWayback archive domain providers debug).results,
        (∃ p ∈ buildServicePatterns (TrimSpace domain) providers, r.Service = p.Service) ∧
        ∃ q ∈ buildServicePatterns (TrimSpace domain) [], r.Service = q.Service) := by
  rw [runForDomainWayback_ok archive domain providers debug h]
  refine ⟨rfl, rfl, rfl, ?_, ?_, ?_⟩
  · intro p e he
    simp [fetchedResults, he]
  · intro p entries he
    simp [fetchedResults, he]
  · intro r hr
    obtain ⟨p, hp, hrp⟩ := List.mem_flatMap.mp hr
    have hs : r.Service = p.Service := by
      unfold fetchedResults at hrp
      split at hrp
      · exact absurd hrp (List.not_mem_nil _)
      · obtain ⟨e, _, he⟩ := List.mem_map.mp hrp
        rw [← he]
    exact ⟨⟨p, hp, hs⟩, ⟨p, (buildServicePatterns_sublist _ _).subset hp, hs⟩⟩

theorem runForDomainWayback_results_witness :
    (runForDomainWayback
        (fun p => if p = "https://raw.githubusercontent.com/*example.com*/*" then
          .ok [["urlkey", "timestamp", "original"], ["k", "20200101000000", "http://a"]]
          else .error "timeout")
        " example.com" ["github"] false).queried =
        ["https://github.com/*example.com*/*",
         "https://raw.githubusercontent.com/*example.com*/*"] ∧
      (runForDomainWayback
        (fun p => if p = "https://raw.githubusercontent.com/*example.com*/*" then
          .ok [["urlkey", "timestamp", "original"], ["k", "20200101000000", "http://a"]]
          else .error "timeout")
        " example.com" ["github"] false).results =
        [⟨"github_raw", "http://a", "20200101000000"⟩] :=
  have h := runForDomainWayback_results
    (fun p => if p = "https://raw.githubusercontent.com/*example.com*/*" then
      .ok [["urlkey", "timestamp", "original"], ["k", "20200101000000", "http://a"]]
      else .error "timeout") " example.com" ["github"] false (by decide)
  ⟨h.1.trans (by decide), h.2.1.trans (by decide)⟩

theorem mem_sortedServices (visit : List String → List String)
    (hvisit : ∀ ks, (visit ks).Perm ks) (results : List WaybackResult) (s : String) :
    s ∈ sortedServices visit (groupResults results) ↔ ∃ r ∈ results, r.Service = s := by
  rw [(sortedServices_perm visit hvisit _).mem_iff]
  exact mem_keys_groupResults results s

theorem printWaybackResults_visit (visit visit' : List String → List String)
    (hvisit : ∀ ks, (visit ks).Perm ks) (hvisit' : ∀ ks, (visit' ks).Perm ks)
    (domain : String) (results : List WaybackResult) :
    printWaybackResults visit domain results = printWaybackResults visit' domain results := by
  simp only [printWaybackResults, sortedServices_visit visit visit' hvisit hvisit']

theorem writeWaybackHTMLReport_visit (visit visit' : List String → List String)
    (hvisit : ∀ ks, (visit ks).Perm ks) (hvisit' : ∀ ks, (visit' ks).Perm ks)
    (now domain : String) (results : List WaybackResult) :
    writeWaybackHTMLReport visit now domain results =
      writeWaybackHTMLReport visit' now domain results := by
  simp only [writeWaybackHTMLReport, sortedServices_visit visit visit' hvisit hvisit']

/-- C12: both renderers emit one section per element of the sorted list of service names,
in the order of that list: for a non-empty result list the console text is the banner
followed, for each name of the list in turn, by an empty line, the heading in square
brackets and the lines of that group, and the HTML text is the head followed, for each name
of the list in turn, by the `<h2>` heading and the table of that group. The list is in
strictly ascending lexicographic order and holds exactly the distinct `Service` values of
the results, each once; it, and with it the whole console text and the whole HTML text,
does not depend on the order in which the grouping map is visited. -/
theorem sortedServices_headings (visit visit' : List String → List String)
    (hvisit : ∀ ks, (visit ks).Perm ks) (hvisit' : ∀ ks, (visit' ks).Perm ks)
    (now domain : String) (results : List WaybackResult) :
    List.Sorted (· < ·) (sortedServices visit (groupResults results)) ∧
      List.Pairwise (fun a b => stringLess a b = true)
        (sortedServices visit (groupResults results)) ∧
      (sortedServices visit (groupResults results)).Nodup ∧
      (∀ s, s ∈ sortedServices visit (groupResults results) ↔ ∃ r ∈ results, r.Service = s) ∧
      sortedServices visit (groupResults results) =
        sortedServices visit' (groupResults results) ∧
      printWaybackResults visit domain results = printWaybackResults visit' domain results ∧
      writeWaybackHTMLReport visit now domain results =
        writeWaybackHTMLReport visit' now domain results ∧
      (results ≠ [] →
        printWaybackResults visit domain results =
          consoleBanner domain ++
            (sortedServices visit (groupResults results)).flatMap (fun s =>
              ["", "[" ++ s ++ "]"] ++ ((groupResults results).get s).map consoleLine)) ∧
      (results ≠ [] →
        writeWaybackHTMLReport visit now domain results =
          reportHead now domain ++
            String.join ((sortedServices visit (groupResults results)).map (fun s =>
              "<h2>" ++ escapeHTML s ++ "</h2>" ++
              "<table><thead><tr><th>Date</th><th>URL archivée</th></tr></thead><tbody>" ++
              String.join (((groupResults results).get s).map htmlRow) ++
              "</tbody></table>")) ++
            "</body></html>") := by
  have hnd : (sortedServices visit (groupResults results)).Nodup :=
    (sortedServices_perm visit hvisit _).nodup_iff.mpr (nodup_keys_groupResults results)
  have hlt : List.Sorted (· < ·) (sortedServices visit (groupResults results)) :=
    (sortStrings_spec _).2.lt_of_le hnd
  refine ⟨hlt, ?_, hnd, mem_sortedServices visit hvisit results,
    sortedServices_visit visit visit' hvisit hvisit' _,
    printWaybackResults_visit visit visit' hvisit hvisit' domain results,
    writeWaybackHTMLReport_visit visit visit' hvisit hvisit' now domain results, ?_, ?_⟩
  · exact List.Pairwise.imp (fun h => (stringLess_iff _ _).mpr h) hlt
  · intro hne
    have hlen : ¬ results.length = 0 := fun h => hne (List.length_eq_zero.mp h)
    simp only [printWaybackResults, hlen, if_false]
  · intro hne
    have hlen : ¬ results.length = 0 := fun h => hne (List.length_eq_zero.mp h)
    simp only [writeWaybackHTMLReport, hlen, if_false]

theorem sortedServices_headings_witness :
    sortedServices List.reverse
        (groupResults
          [⟨"jira", "u1", "20200101000000"⟩, ⟨"box_shares", "u2", ""⟩, ⟨"jira", "u3", "3"⟩]) =
      ["box_shares", "jira"] ∧
    printWaybackResults List.reverse "example.com"
        [⟨"jira", "u1", "20200101000000"⟩, ⟨"box_shares", "u2", ""⟩, ⟨"jira", "u3", "3"⟩] =
      ["====================================================",
       " Wayback Services Hunting pour le domaine: example.com",
       "====================================================",
       "", "[box_shares]", "u2",
       "", "[jira]", "2020-01-01T00:00:00Z u1", "3 u3"] ∧
    writeWaybackHTMLReport List.reverse "T" "example.com"
        [⟨"jira", "u1", "20200101000000"⟩, ⟨"box_shares", "u2", ""⟩, ⟨"jira", "u3", "3"⟩] =
      reportHead "T" "example.com" ++
        String.join
          ["<h2>box_shares</h2>" ++
             "<table><thead><tr><th>Date</th><th>URL archivée</th></tr></thead><tbody>" ++
             String.join [htmlRow ⟨"box_shares", "u2", ""⟩] ++ "</tbody></table>",
           "<h2>jira</h2>" ++
             "<table><thead><tr><th>Date</th><th>URL archivée</th></tr></thead><tbody>" ++
             String.join [htmlRow ⟨"jira", "u1", "20200101000000"⟩, htmlRow ⟨"jira", "u3", "3"⟩] ++
             "</tbody></table>"] ++
        "</body></html>" :=
  have h := sortedServices_headings List.reverse id (fun ks => List.reverse_perm ks)
    (fun ks => List.Perm.refl ks) "T" "example.com"
    [⟨"jira", "u1", "20200101000000"⟩, ⟨"box_shares", "u2", ""⟩, ⟨"jira", "u3", "3"⟩]
  have hs : sortedServices id (groupResults
      [⟨"jira", "u1", "20200101000000"⟩, ⟨"box_shares", "u2", ""⟩, ⟨"jira", "u3", "3"⟩]) =
      ["box_shares", "jira"] := by decide
  have g1 : (groupResults
      [⟨"jira", "u1", "20200101000000"⟩, ⟨"box_shares", "u2", ""⟩, ⟨"jira", "u3", "3"⟩]).get
      "box_shares" = [⟨"box_shares", "u2", ""⟩] := by decide
  have g2 : (groupResults
      [⟨"jira", "u1", "20200101000000"⟩, ⟨"box_shares", "u2", ""⟩, ⟨"jira", "u3", "3"⟩]).get
      "jira" = [⟨"jira", "u1", "20200101000000"⟩, ⟨"jira", "u3", "3"⟩] := by decide
  have e1 : escapeHTML "box_shares" = "box_shares" := by decide
  have e2 : escapeHTML "jira" = "jira" := by decide
  have k1 : "<h2>" ++ "box_shares" ++ "</h2>" = "<h2>box_shares</h2>" := by decide
  have k2 : "<h2>" ++ "jira" ++ "</h2>" = "<h2>jira</h2>" := by decide
  ⟨h.2.2.2.2.1.trans hs,
   (h.2.2.2.2.2.2.2.1 (by decide)).trans (by decide),
   (h.2.2.2.2.2.2.2.2 (by decide)).trans
     (by rw [h.2.2.2.2.1, hs]; simp only [List.map_cons, List.map_nil, g1, g2, e1, e2, k1, k2])⟩

theorem services_distinct (D : String) (P : List String) :
    ((buildServicePatterns D P).map (fun q => q.Service)).Nodup := by
  refine List.Nodup.sublist ((buildServicePatterns_sublist D P).map _) ?_
  rw [services_of_full_catalog]
  decide

theorem fetchedResults_service (archive : String → Except String (List (List String)))
    (debug : Bool) (q : servicePattern) :
    ∀ r ∈ fetchedResults archive debug q, r.Service = q.Service := by
  intro r hr
  unfold fetchedResults at hr
  split at hr
  · exact absurd hr (List.not_mem_nil _)
  · obtain ⟨e, _, he⟩ := List.mem_map.mp hr
    rw [← he]

/-- Among the results of a list of patterns with pairwise distinct services, those of
the service of one pattern are the results that this pattern contributed. -/
theorem filter_flatMap_fetched (archive : String → Except String (List (List String)))
    (debug : Bool) (ps : List servicePattern)
    (hnd : (ps.map (fun q => q.Service)).Nodup) (p : servicePattern) (hp : p ∈ ps) :
    (ps.flatMap (fetchedResults archive debug)).filter
        (fun r => decide (r.Service = p.Service)) = fetchedResults archive debug p := by
  induction ps with
  | nil => exact absurd hp (List.not_mem_nil _)
  | cons q qs ih =>
    simp only [List.map_cons, List.nodup_cons, List.mem_map, not_exists, not_and] at hnd
    obtain ⟨hq, hnd'⟩ := hnd
    rw [List.flatMap_cons, List.filter_append]
    rcases List.mem_cons.mp hp with rfl | hmem
    · have h1 : (fetchedResults archive debug p).filter
          (fun r => decide (r.Service = p.Service)) = fetchedResults archive debug p := by
        rw [List.filter_eq_self]
        intro r hr
        simpa using fetchedResults_service archive debug p r hr
      have h2 : (qs.flatMap (fetchedResults archive debug)).filter
          (fun r => decide (r.Service = p.Service)) = [] := by
        rw [List.filter_eq_nil_iff]
        intro r hr
        obtain ⟨q', hq', hrq⟩ := List.mem_flatMap.mp hr
        have := fetchedResults_service archive debug q' r hrq
        simp only [decide_eq_true_eq]
        intro e
        exact hq q' hq' (this.symm.trans e)
      rw [h1, h2, List.append_nil]
    · have h1 : (fetchedResults archive debug q).filter
          (fun r => decide (r.Service = p.Service)) = [] := by
        rw [List.filter_eq_nil_iff]
        intro r hr
        have := fetchedResults_service archive debug q r hr
        simp only [decide_eq_true_eq]
        intro e
        exact hq p hmem (e.symm.trans this)
      rw [h1, List.nil_append, ih hnd' hmem]

/-- C13: in both renderers the entries under a service `s` are the results whose
`Service` is `s`, in the order of the result list. For the results of
`runForDomainWayback` and the service of a catalog pattern they are the entries of the
fetch of that one pattern, in the order of the archive response, because no two
patterns share a service. -/
theorem groupResults_entries (visit : List String → List String) (now domain : String)
    (results : List WaybackResult) :
    (∀ s, (groupResults results).get s = results.filter (fun r => decide (r.Service = s))) ∧
      (results ≠ [] →
        printWaybackResults visit domain results =
          consoleBanner domain ++
          (sortedServices visit (groupResults results)).flatMap (fun s =>
            ["", "[" ++ s ++ "]"] ++
              (results.filter (fun r => decide (r.Service = s))).map consoleLine)) ∧
      (results ≠ [] →
        writeWaybackHTMLReport visit now domain results =
            reportHead now domain ++ String.join ((sortedServices visit (groupResults results)).map (fun s =>
              "<h2>" ++ escapeHTML s ++ "</h2>" ++
              "<table><thead><tr><th>Date</th><th>URL archivée</th></tr></thead><tbody>" ++
              String.join ((results.filter (fun r => decide (r.Service = s))).map htmlRow) ++
              "</tbody></table>")) ++ "</body></html>") ∧
      (∀ (archive : String → Except String (List (List String))) (dom : String)
          (providers : List String) (debug : Bool),
        TrimSpace dom ≠ "" →
        ∀ p ∈ buildServicePatterns (TrimSpace dom) providers,
          (groupResults (runForDomainWayback archive dom providers debug).results).get
              p.Service = fetchedResults archive debug p) := by
  have hfun : (groupResults results).get =
      fun k => results.filter (fun r => decide (r.Service = k)) := by
    funext k
    exact get_groupResults results k
  refine ⟨get_groupResults results, ?_, ?_, ?_⟩
  · intro hne
    have hlen : ¬ results.length = 0 := fun h => hne (List.length_eq_zero.mp h)
    simp only [printWaybackResults, hlen, if_false, hfun]
  · intro hne
    have hlen : ¬ results.length = 0 := fun h => hne (List.length_eq_zero.mp h)
    simp only [writeWaybackHTMLReport, hlen, if_false, hfun]
  · intro archive dom providers debug hdom p hp
    rw [get_groupResults, runForDomainWayback_ok archive dom providers debug hdom]
    exact filter_flatMap_fetched archive debug _
      (services_distinct (TrimSpace dom) providers) p hp

theorem groupResults_entries_witness :
    (groupResults (runForDomainWayback
        (fun p => if p = "https://github.com/*example.com*/*" then
          .ok [["urlkey", "timestamp", "original"], ["k", "20200101000000", "http://b"],
            ["k", "20190101000000", "http://a"]]
          else .ok [["urlkey", "timestamp", "original"], ["k", "2", "http://c"]])
        "example.com" ["github"] false).results).get "github_repos" =
      [⟨"github_repos", "http://b", "20200101000000"⟩,
       ⟨"github_repos", "http://a", "20190101000000"⟩] :=
  ((groupResults_entries id "" "example.com" []).2.2.2
    (fun p => if p = "https://github.com/*example.com*/*" then
      .ok [["urlkey", "timestamp", "original"], ["k", "20200101000000", "http://b"],
        ["k", "20190101000000", "http://a"]]
      else .ok [["urlkey", "timestamp", "original"], ["k", "2", "http://c"]])
    "example.com" ["github"] false (by decide)
    ⟨"github_repos", "https://github.com/*example.com*/*", "github"⟩ (by decide)).trans
    (by decide)

/-! ## HTML escaping -/

theorem escapeChar_cases (c : Char) :
    (∃ t ∈ entityTails, escapeChar c = '&' :: t) ∨
      (escapeChar c = [c] ∧ c ≠ '&' ∧ c ≠ '<' ∧ c ≠ '>' ∧ c ≠ Char.ofNat 34 ∧
        c ≠ Char.ofNat 39) := by
  unfold escapeChar
  by_cases h1 : c = '&'
  · exact Or.inl ⟨"amp;".data, by decide, by simp [h1]⟩
  by_cases h2 : c = '<'
  · exact Or.inl ⟨"lt;".data, by decide, by simp [h1, h2]⟩
  by_cases h3 : c = '>'
  · exact Or.inl ⟨"gt;".data, by decide, by simp [h1, h2, h3]⟩
  by_cases h4 : c = Char.ofNat 34
  · exact Or.inl ⟨"quot;".data, by decide, by simp [h1, h2, h3, h4]⟩
  by_cases h5 : c = Char.ofNat 39
  · exact Or.inl ⟨"#39;".data, by decide, by simp [h1, h2, h3, h4, h5]⟩
  exact Or.inr ⟨by simp [h1, h2, h3, h4, h5], h1, h2, h3, h4, h5⟩

theorem entityTails_clean : ∀ t ∈ entityTails, ∀ c ∈ t,
    c ≠ '&' ∧ c ≠ '<' ∧ c ≠ '>' ∧ c ≠ Char.ofNat 34 ∧ c ≠ Char.ofNat 39 := by
  decide

theorem escapeHTML_eq (s : String) : escapeHTML s = String.mk (s.data.flatMap escapeChar) := by
  unfold escapeHTML replacerReplace
  congr 1
  apply List.flatMap_congr
  intro c _
  unfold escapeChar
  by_cases h1 : c = '&'
  · subst h1; rfl
  by_cases h2 : c = '<'
  · subst h2; rfl
  by_cases h3 : c = '>'
  · subst h3; rfl
  by_cases h4 : c = Char.ofNat 34
  · subst h4; rfl
  by_cases h5 : c = Char.ofNat 39
  · subst h5; rfl
  have e1 : ¬ '&' = c := fun e => h1 e.symm
  have e2 : ¬ '<' = c := fun e => h2 e.symm
  have e3 : ¬ '>' = c := fun e => h3 e.symm
  have e4 : ¬ Char.ofNat 34 = c := fun e => h4 e.symm
  have e5 : ¬ Char.ofNat 39 = c := fun e => h5 e.symm
  simp [List.find?, h1, h2, h3, h4, h5, e1, e2, e3, e4, e5]

theorem flatMap_escapeChar_amp (l pre post : List Char)
    (h : l.flatMap escapeChar = pre ++ '&' :: post) :
    ∃ t ∈ entityTails, List.IsPrefix t post := by
  induction l generalizing pre with
  | nil => simp at h
  | cons c cs ih =>
    rw [List.flatMap_cons, List.append_eq_append_iff] at h
    rcases h with ⟨a, hpre, hrest⟩ | ⟨b, hc, hb⟩
    · exact ih a hrest
    · cases b with
      | nil =>
        simp only [List.nil_append] at hb
        exact ih [] hb.symm
      | cons x b' =>
        simp only [List.cons_append, List.cons.injEq] at hb
        obtain ⟨hx, hpost⟩ := hb
        subst hx
        rcases escapeChar_cases c with ⟨t, ht, hct⟩ | ⟨hcc, hne, _⟩
        · rw [hct] at hc
          cases pre with
          | nil =>
            simp only [List.nil_append, List.cons.injEq, true_and] at hc
            exact ⟨t, ht, ⟨cs.flatMap escapeChar, by rw [hpost, hc]⟩⟩
          | cons y pre' =>
            simp only [List.cons_append, List.cons.injEq] at hc
            have hmem : '&' ∈ t := by rw [hc.2]; simp
            exact absurd rfl (entityTails_clean t ht '&' hmem).1
        · rw [hcc] at hc
          cases pre with
          | nil =>
            simp only [List.nil_append, List.cons.injEq] at hc
            exact absurd hc.1 hne
          | cons y pre' =>
            simp only [List.cons_append, List.cons.injEq] at hc
            have := hc.2
            simp at this

/-- C14: `escapeHTML(s)` is `s` with each of `&`, `<`, `>`, the double quote and the
apostrophe replaced by `&amp;`, `&lt;`, `&gt;`, `&quot;` and `&#39;` in one pass from
left to right, every other character unchanged; the result contains none of `<`, `>`,
the double quote and the apostrophe, and every `&` in it starts one of the five
entities. -/
theorem escapeHTML_spec (s : String) :
    escapeHTML s = String.mk (s.data.flatMap escapeChar) ∧
      (∀ c ∈ (escapeHTML s).data,
        c ≠ '<' ∧ c ≠ '>' ∧ c ≠ Char.ofNat 34 ∧ c ≠ Char.ofNat 39) ∧
      (∀ pre post : List Char, (escapeHTML s).data = pre ++ '&' :: post →
        ∃ t ∈ entityTails, List.IsPrefix t post) := by
  refine ⟨escapeHTML_eq s, ?_, ?_⟩
  · intro c hc
    rw [escapeHTML_eq] at hc
    obtain ⟨x, _, hx⟩ := List.mem_flatMap.mp hc
    rcases escapeChar_cases x with ⟨t, ht, hxt⟩ | ⟨hxx, _, h2, h3, h4, h5⟩
    · rw [hxt] at hx
      rcases List.mem_cons.mp hx with rfl | hmem
      · decide
      · exact (entityTails_clean t ht c hmem).2
    · rw [hxx] at hx
      rw [List.mem_singleton.mp hx]
      exact ⟨h2, h3, h4, h5⟩
  · intro pre post h
    rw [escapeHTML_eq] at h
    exact flatMap_escapeChar_amp s.data pre post h

theorem escapeHTML_spec_witness :
    escapeHTML "a<b>&\x22c\x22 & \x27d\x27 &amp;" =
      "a&lt;b&gt;&amp;&quot;c&quot; &amp; &#39;d&#39; &amp;amp;" :=
  (escapeHTML_spec "a<b>&\x22c\x22 & \x27d\x27 &amp;").1.trans (by decide)

/-! ## File names -/

theorem replaceChars_single (x y : Char) (l : List Char) :
    replaceChars [x] [y] 0 l = l.map (fun c => if c = x then y else c) := by
  induction l with
  | nil => rfl
  | cons c cs ih =>
    by_cases h : c = x
    · have hp : [x].isPrefixOf (c :: cs) = true := by simp [List.isPrefixOf, h]
      simp [replaceChars, hp, ih, h]
    · have hx : ¬ x = c := fun e => h e.symm
      have hp : [x].isPrefixOf (c :: cs) = false := by simp [List.isPrefixOf, hx]
      simp [replaceChars, hp, ih, h]

theorem ReplaceAll_single (s : String) (x : Char) :
    ReplaceAll s (String.singleton x) (String.singleton '_') =
      String.mk (s.data.map (underscoreFor x)) := by
  have hne : (String.singleton x).data ≠ [] := by simp [String.singleton]
  have hx : (String.singleton x).data = [x] := rfl
  have hy : (String.singleton '_').data = ['_'] := rfl
  unfold ReplaceAll
  rw [if_neg hne, hx, hy, replaceChars_single]
  rfl

theorem underscoreFor_all (c : Char) :
    underscoreFor '|' (underscoreFor '>' (underscoreFor '<' (underscoreFor (Char.ofNat 34)
      (underscoreFor '?' (underscoreFor '*' (underscoreFor ':' (underscoreFor (Char.ofNat 92)
        (underscoreFor '/' c)))))))) = if c ∈ hostileChars then '_' else c := by
  by_cases h1 : c = '/'
  · subst h1; decide
  by_cases h2 : c = Char.ofNat 92
  · subst h2; decide
  by_cases h3 : c = ':'
  · subst h3; decide
  by_cases h4 : c = '*'
  · subst h4; decide
  by_cases h5 : c = '?'
  · subst h5; decide
  by_cases h6 : c = Char.ofNat 34
  · subst h6; decide
  by_cases h7 : c = '<'
  · subst h7; decide
  by_cases h8 : c = '>'
  · subst h8; decide
  by_cases h9 : c = '|'
  · subst h9; decide
  have hmem : c ∉ hostileChars := by
    simp only [hostileChars, List.mem_cons, List.mem_singleton, List.not_mem_nil, h1, h2, h3,
      h4, h5, h6, h7, h8, h9, or_self, not_false_eq_true]
  have s1 : underscoreFor '/' c = c := if_neg h1
  have s2 : underscoreFor (Char.ofNat 92) c = c := if_neg h2
  have s3 : underscoreFor ':' c = c := if_neg h3
  have s4 : underscoreFor '*' c = c := if_neg h4
  have s5 : underscoreFor '?' c = c := if_neg h5
  have s6 : underscoreFor (Char.ofNat 34) c = c := if_neg h6
  have s7 : underscoreFor '<' c = c := if_neg h7
  have s8 : underscoreFor '>' c = c := if_neg h8
  have s9 : underscoreFor '|' c = c := if_neg h9
  rw [s1, s2, s3, s4, s5, s6, s7, s8, s9, if_neg hmem]

theorem sanitizeFilename_eq (s : String) :
    sanitizeFilename s =
      String.mk ((trimSpaceChars s.data).map
        (fun c => if c ∈ hostileChars then '_' else c)) := by
  have e1 : ("/" : String) = String.singleton '/' := rfl
  have e2 : (":" : String) = String.singleton ':' := rfl
  have e3 : ("*" : String) = String.singleton '*' := rfl
  have e4 : ("?" : String) = String.singleton '?' := rfl
  have e5 : ("<" : String) = String.singleton '<' := rfl
  have e6 : (">" : String) = String.singleton '>' := rfl
  have e7 : ("|" : String) = String.singleton '|' := rfl
  have e8 : ("_" : String) = String.singleton '_' := rfl
  have hcomp : (underscoreFor '|' ∘ underscoreFor '>' ∘ underscoreFor '<' ∘
      underscoreFor (Char.ofNat 34) ∘ underscoreFor '?' ∘ underscoreFor '*' ∘
      underscoreFor ':' ∘ underscoreFor (Char.ofNat 92) ∘ underscoreFor '/') =
      fun c => if c ∈ hostileChars then '_' else c := by
    funext c
    simp only [Function.comp_apply]
    exact underscoreFor_all c
  simp only [sanitizeFilename, e1, e2, e3, e4, e5, e6, e7, e8, ReplaceAll_single, TrimSpace,
    List.map_map, hcomp]

/-- C15: `sanitizeFilename(s)` is `s` trimmed of surrounding white space with each of the
nine characters `/`, backslash, `:`, `*`, `?`, double quote, `<`, `>` and `|` replaced by
an underscore and every other character unchanged; the result contains none of the nine
characters and is as long as the trimmed input. -/
theorem sanitizeFilename_spec (s : String) :
    sanitizeFilename s =
        String.mk ((TrimSpace s).data.map (fun c => if c ∈ hostileChars then '_' else c)) ∧
      (∀ c ∈ (sanitizeFilename s).data, c ∉ hostileChars) ∧
      (sanitizeFilename s).length = (TrimSpace s).length := by
  have heq := sanitizeFilename_eq s
  refine ⟨heq, ?_, ?_⟩
  · intro c hc
    rw [heq] at hc
    obtain ⟨x, _, hx⟩ := List.mem_map.mp hc
    by_cases hh : x ∈ hostileChars
    · rw [if_pos hh] at hx
      rw [← hx]
      decide
    · rw [if_neg hh] at hx
      rw [← hx]
      exact hh
  · rw [heq]
    simp [String.length, TrimSpace]

theorem sanitizeFilename_spec_witness :
    sanitizeFilename "a/b:c*d" = "a_b_c_d" ∧
      sanitizeFilename "  ex ample.com/x?y|z \n" = "ex ample.com_x_y_z" :=
  ⟨(sanitizeFilename_spec "a/b:c*d").1.trans (by decide),
   (sanitizeFilename_spec "  ex ample.com/x?y|z \n").1.trans (by decide)⟩

/-! ## Dates of fourteen digits -/

/-- C18, the claim as stated fails: `20211315120000` has exactly fourteen decimal digits,
but its month is 13 and `formatWBDate` returns it unchanged. -/
theorem formatWBDate_month_thirteen :
    "20211315120000".length = 14 ∧ (∀ c ∈ "20211315120000".data, c.isDigit = true) ∧
      formatWBDate "20211315120000" = "20211315120000" := by
  decide

theorem validStamp_iff_fieldsInRange (s : List Char) :
    validStamp s ↔ s.length = 14 ∧ (∀ c ∈ s, c.isDigit = true) ∧ fieldsInRange s :=
  Iff.rfl

/-- C18, amended: a string of exactly fourteen decimal digits whose fields are in range
(month 01 to 12, a day of that month, hour up to 23, minute and second up to 59) is
reformatted to `YYYY-MM-DDTHH:MM:SSZ`, which differs from the input; a string of
fourteen decimal digits with a field out of range is returned unchanged. -/
theorem formatWBDate_digits (raw : String) (hlen : raw.length = 14)
    (hdig : ∀ c ∈ raw.data, c.isDigit = true) :
    (fieldsInRange raw.data →
        formatWBDate raw = String.mk (isoShape raw.data) ∧ formatWBDate raw ≠ raw ∧
          (formatWBDate raw).length = 20) ∧
      (¬ fieldsInRange raw.data → formatWBDate raw = raw) := by
  constructor
  · intro hr
    have hv : validStamp raw.data := (validStamp_iff_fieldsInRange _).mpr ⟨hlen, hdig, hr⟩
    have hf := formatWBDate_of_valid raw hv
    obtain ⟨c0, c1, c2, c3, c4, c5, c6, c7, c8, c9, c10, c11, c12, c13, hl⟩ :=
      length_fourteen hv.1
    have h20 : (formatWBDate raw).length = 20 := by
      rw [hf, hl]
      rfl
    refine ⟨hf, ?_, h20⟩
    intro heq
    rw [heq, hlen] at h20
    cases h20
  · intro hr
    exact formatWBDate_of_not_valid raw
      (fun hv => hr ((validStamp_iff_fieldsInRange _).mp hv).2.2)

theorem formatWBDate_digits_witness :
    formatWBDate "20210615120000" = "2021-06-15T12:00:00Z" ∧
      formatWBDate "20210230120000" = "20210230120000" :=
  ⟨((formatWBDate_digits "20210615120000" (by decide) (by decide)).1 (by decide)).1.trans
      (by decide),
   (formatWBDate_digits "20210230120000" (by decide) (by decide)).2 (by decide)⟩

/-! ## The provider flag -/

theorem parts_eq (table : Char → Char) (ps acc : List String) :
    parseWBFlags.parts table ps acc =
      acc ++ (ps.map (fun p => ToLower table (TrimSpace p))).filter
        (fun p => decide (p ≠ "")) := by
  induction ps generalizing acc with
  | nil => simp [parseWBFlags.parts]
  | cons p rest ih =>
    unfold parseWBFlags.parts
    by_cases h : ToLower table (TrimSpace p) = ""
    · simp [h, ih]
    · simp [h, ih]

theorem trimSpaceChars_eq_nil (l : List Char) (h : trimSpaceChars l = []) :
    ∀ c ∈ l, isSpace c = true := by
  unfold trimSpaceChars at h
  rw [List.rdropWhile_eq_nil_iff] at h
  have hd : l.dropWhile isSpace = [] := by
    cases hl : l.dropWhile isSpace with
    | nil => rfl
    | cons x xs =>
      have hx : isSpace x = true := h x (by rw [hl]; simp)
      have := List.head_dropWhile_not isSpace l (by rw [hl]; simp)
      simp [hl, hx] at this
  exact List.dropWhile_eq_nil_iff.mp hd

theorem splitChars_no_sep (sep : Char) (l : List Char) (h : sep ∉ l) :
    splitChars sep l = [l] := by
  induction l with
  | nil => rfl
  | cons c cs ih =>
    have hc : ¬ c = sep := fun e => h (e ▸ List.mem_cons_self _ _)
    have hcs : sep ∉ cs := fun hm => h (List.mem_cons_of_mem _ hm)
    simp [splitChars, hc, ih hcs]

/-- The provider list as the specification describes it: the pieces between the commas,
each trimmed and then lower-cased, the empty ones dropped. -/
theorem providers_eq (table : Char → Char) (s : String) :
    parseWBFlags.providers table s =
      ((Split s ',').map (fun p => ToLower table (TrimSpace p))).filter
        (fun p => decide (p ≠ "")) := by
  unfold parseWBFlags.providers
  by_cases h : TrimSpace s = ""
  · have hnil : trimSpaceChars s.data = [] := by
      have := congrArg String.data h
      simpa [TrimSpace] using this
    have hsp := trimSpaceChars_eq_nil s.data hnil
    have hcomma : ',' ∉ s.data := fun hm => by
      have := hsp ',' hm
      revert this
      decide
    have hsplit : Split s ',' = [s] := by
      unfold Split
      rw [splitChars_no_sep ',' s.data hcomma]
      rfl
    simp only [h, ne_eq, not_true_eq_false, if_false, hsplit, List.map_cons, List.map_nil]
    simp [ToLower]
  · simp only [h, ne_eq, not_false_eq_true, if_true, parts_eq, List.nil_append]

theorem toNat_ofNat_small (n : Nat) (h : n < 128) : (Char.ofNat n).toNat = n := by
  have hv : n.isValidChar := Or.inl (by omega)
  simp only [Char.ofNat, hv, dite_true, Char.ofNatAux, Char.toNat]
  rfl

theorem toLowerRune_comma (table : Char → Char)
    (htable : ∀ c : Char, 128 ≤ c.toNat → table c ≠ ',') (c : Char) :
    toLowerRune table c = ',' ↔ c = ',' := by
  unfold toLowerRune
  by_cases h1 : c.toNat < 128
  · rw [if_pos h1]
    by_cases h2 : 65 ≤ c.toNat ∧ c.toNat ≤ 90
    · rw [if_pos h2]
      constructor
      · intro h
        have := congrArg Char.toNat h
        rw [toNat_ofNat_small _ (by omega)] at this
        have h44 : (',' : Char).toNat = 44 := rfl
        omega
      · intro h
        subst h
        exact absurd h2 (by decide)
    · rw [if_neg h2]
  · rw [if_neg h1]
    constructor
    · intro h
      exact absurd h (htable c (by omega))
    · intro h
      subst h
      exact absurd h1 (by decide)

theorem isSpace_toLowerRune (table : Char → Char)
    (htable : ∀ c : Char, 128 ≤ c.toNat → isSpace (table c) = isSpace c) (c : Char) :
    isSpace (toLowerRune table c) = isSpace c := by
  unfold toLowerRune
  by_cases h1 : c.toNat < 128
  · rw [if_pos h1]
    by_cases h2 : 65 ≤ c.toNat ∧ c.toNat ≤ 90
    · rw [if_pos h2]
      have hn := toNat_ofNat_small (c.toNat + 32) (by omega)
      have e1 : isSpace (Char.ofNat (c.toNat + 32)) = false := by
        simp only [isSpace, hn, decide_eq_false_iff_not]
        omega
      have e2 : isSpace c = false := by
        simp only [isSpace, decide_eq_false_iff_not]
        omega
      rw [e1, e2]
    · rw [if_neg h2]
  · rw [if_neg h1]
    exact htable c (by omega)

theorem splitChars_ne_nil (sep : Char) (l : List Char) : splitChars sep l ≠ [] := by
  cases l with
  | nil => simp [splitChars]
  | cons c cs =>
    unfold splitChars
    split
    · simp
    · split <;> simp

theorem splitChars_map (f : Char → Char) (sep : Char) (hf : ∀ c, f c = sep ↔ c = sep)
    (l : List Char) :
    splitChars sep (l.map f) = (splitChars sep l).map (List.map f) := by
  induction l with
  | nil => rfl
  | cons c cs ih =>
    by_cases h : c = sep
    · subst h
      have hfc : f c = c := (hf c).mpr rfl
      simp only [List.map_cons, splitChars, hfc, if_true, ih, List.map_nil]
    · have hfc : ¬ f c = sep := fun e => h ((hf c).mp e)
      simp only [List.map_cons, splitChars, h, hfc, if_false, ih]
      cases hs : splitChars sep cs with
      | nil => exact absurd hs (splitChars_ne_nil sep cs)
      | cons piece pieces => simp

theorem trimSpaceChars_map (f : Char → Char) (hf : ∀ c, isSpace (f c) = isSpace c)
    (l : List Char) : trimSpaceChars (l.map f) = (trimSpaceChars l).map f := by
  have hcomp : isSpace ∘ f = isSpace := funext hf
  unfold trimSpaceChars List.rdropWhile
  rw [List.dropWhile_map, hcomp, ← List.map_reverse, List.dropWhile_map, hcomp,
    List.map_reverse]

/-- With case tables that leave the comma and white space alone, the provider list is a
function of the lower-cased flag value. -/
theorem providers_of_lower (table : Char → Char)
    (htable : ∀ c : Char, 128 ≤ c.toNat → table c ≠ ',' ∧ isSpace (table c) = isSpace c)
    (s : String) :
    parseWBFlags.providers table s =
      ((Split (ToLower table s) ',').map TrimSpace).filter (fun p => decide (p ≠ "")) := by
  have hcomma := toLowerRune_comma table (fun c hc => (htable c hc).1)
  have hspace := isSpace_toLowerRune table (fun c hc => (htable c hc).2)
  rw [providers_eq]
  congr 1
  simp only [Split, ToLower, TrimSpace, List.map_map, splitChars_map _ _ hcomma]
  apply List.map_congr_left
  intro p _
  simp only [Function.comp_apply, TrimSpace, trimSpaceChars_map _ hspace]

/-- C19: the provider list that `parseWBFlags` computes from the value `s` of
`-provider` is, in order, the pieces of `s` between the commas, each trimmed of
surrounding white space and then lower-cased, the empty ones dropped. A value without a
non-empty piece gives the empty list, for which `buildServicePatterns` returns the full
catalog. Two values with the same lower-casing give the same provider list and the same
patterns, for case tables that leave the comma and white space alone. -/
theorem parseWBFlags_providers (table : Char → Char) (s : String) :
    (∀ domain list report debug,
        (parseWBFlags table domain list s report debug).Providers =
          ((Split s ',').map (fun p => ToLower table (TrimSpace p))).filter
            (fun p => decide (p ≠ ""))) ∧
      ((∀ p ∈ Split s ',', TrimSpace p = "") →
        parseWBFlags.providers table s = [] ∧
          ∀ D, buildServicePatterns D (parseWBFlags.providers table s) =
            buildServicePatterns D []) ∧
      ((∀ c : Char, 128 ≤ c.toNat → table c ≠ ',' ∧ isSpace (table c) = isSpace c) →
        ∀ s' : String, ToLower table s = ToLower table s' →
          parseWBFlags.providers table s = parseWBFlags.providers table s' ∧
            ∀ D, buildServicePatterns D (parseWBFlags.providers table s) =
              buildServicePatterns D (parseWBFlags.providers table s')) := by
  refine ⟨?_, ?_, ?_⟩
  · intro domain list report debug
    exact providers_eq table s
  · intro hall
    have hnil : parseWBFlags.providers table s = [] := by
      rw [providers_eq, List.filter_eq_nil_iff]
      intro p hp
      obtain ⟨q, hq, hqp⟩ := List.mem_map.mp hp
      rw [← hqp, hall q hq]
      simp [ToLower]
    exact ⟨hnil, fun D => by rw [hnil]⟩
  · intro htable s' hlow
    have heq : parseWBFlags.providers table s = parseWBFlags.providers table s' := by
      rw [providers_of_lower table htable s, providers_of_lower table htable s', hlow]
    exact ⟨heq, fun D => by rw [heq]⟩

theorem parseWBFlags_providers_witness :
    parseWBFlags.providers id " GitHub ,, S3 " = ["github", "s3"] ∧
      parseWBFlags.providers id " \t" = [] ∧ parseWBFlags.providers id " , ," = [] ∧
      buildServicePatterns "example.com" (parseWBFlags.providers id "GitHub, S3") =
        buildServicePatterns "example.com" (parseWBFlags.providers id "gitHUB, s3") :=
  ⟨((parseWBFlags_providers id " GitHub ,, S3 ").1 "" "" false false).trans (by decide),
   ((parseWBFlags_providers id " \t").2.1 (by decide)).1,
   ((parseWBFlags_providers id " , ,").2.1 (by decide)).1,
   ((parseWBFlags_providers id "GitHub, S3").2.2
     (fun c hc => ⟨fun h => by
        have h2 : (id c).toNat = 44 := by rw [h]; rfl
        simp only [id] at h2
        omega, rfl⟩)
     "gitHUB, s3" (by decide)).2 "example.com"⟩

/-! ## Sanitizing twice -/

theorem trimSpaceChars_idem (l : List Char) :
    trimSpaceChars (trimSpaceChars l) = trimSpaceChars l := by
  unfold trimSpaceChars
  have hdrop : ((l.dropWhile isSpace).rdropWhile isSpace).dropWhile isSpace =
      (l.dropWhile isSpace).rdropWhile isSpace := by
    cases hm : l.dropWhile isSpace with
    | nil => simp [List.rdropWhile_nil]
    | cons x xs =>
      have hx : ¬ isSpace x = true := by
        have := List.head_dropWhile_not isSpace l (by rw [hm]; simp)
        simpa [hm] using this
      obtain ⟨t, ht⟩ := List.rdropWhile_prefix (p := isSpace) (l := x :: xs)
      cases hr : List.rdropWhile isSpace (x :: xs) with
      | nil =>
        have hall := List.rdropWhile_eq_nil_iff.mp hr
        exact absurd (hall x (List.mem_cons_self _ _)) hx
      | cons y ys =>
        rw [hr] at ht
        have hy : y = x := by
          simp only [List.cons_append, List.cons.injEq] at ht
          exact ht.1
        subst hy
        simp [List.dropWhile_cons, hx]
  rw [hdrop, List.rdropWhile_idempotent]

theorem isSpace_underscore (c : Char) :
    isSpace (if c ∈ hostileChars then '_' else c) = isSpace c := by
  by_cases h : c ∈ hostileChars
  · rw [if_pos h]
    revert h c
    decide
  · rw [if_neg h]

theorem underscore_idem (c : Char) :
    (fun c => if c ∈ hostileChars then '_' else c)
        ((fun c => if c ∈ hostileChars then '_' else c) c) =
      (fun c => if c ∈ hostileChars then '_' else c) c := by
  by_cases h : c ∈ hostileChars
  · simp only [h, if_true]
    decide
  · simp only [h, if_false]

/-- C21: `sanitizeFilename` is idempotent: `sanitizeFilename(sanitizeFilename(s))` is
`sanitizeFilename(s)` for every string `s`. -/
theorem sanitizeFilename_idempotent (s : String) :
    sanitizeFilename (sanitizeFilename s) = sanitizeFilename s := by
  rw [sanitizeFilename_eq (sanitizeFilename s), sanitizeFilename_eq s]
  refine congrArg String.mk ?_
  show List.map _ (trimSpaceChars (List.map _ (trimSpaceChars s.data))) = _
  rw [trimSpaceChars_map _ isSpace_underscore, trimSpaceChars_idem, List.map_map]
  apply List.map_congr_left
  intro c _
  exact underscore_idem c

theorem sanitizeFilename_idempotent_witness :
    sanitizeFilename (sanitizeFilename " a/b: c|d \n") = sanitizeFilename " a/b: c|d \n" ∧
      sanitizeFilename " a/b: c|d \n" = "a_b_ c_d" :=
  ⟨sanitizeFilename_idempotent " a/b: c|d \n", by decide⟩
end Wayback
